/-
Verification of the job-control subsystem of `myshell.py`.

This file gives a shallow embedding of the job registry, the asynchronous
reaper (SIGCHLD handler), the foreground/background controller, the kill
builtin, the launcher and the retention pruner, and proves the registry
and lifecycle properties stated in the specification.

Modelling conventions:
 - Python's `OrderedDict` / `dict` tables become insertion-ordered
   association lists `List (Nat × _)`; the helpers `dictLookup`,
   `dictPop`, `dictModify` and `assocInsert` mirror `get`, `pop`,
   in-place item mutation, and item assignment.  Reachable tables always
   have distinct keys (as Python dicts do by construction).
 - The status strings "Running" / "Stopped" / "Exited(c)" / "Signaled(g)"
   / "Done" written by the source are exactly the five shapes of the
   inductive `JobStatus`; `statusStr` renders them back for display.
 - `time.time()` timestamps become `Nat` instants passed in explicitly
   (`now`, `start_time`); ages use truncated subtraction as the shell
   only ever compares and displays nonnegative ages.
 - The OS layer is represented explicitly: `pending` is the kernel-side
   queue of not-yet-reaped child state changes, and `os.waitpid` calls
   consume entries from it (`extractFirstFg` for the blocking
   pid-specific wait with WUNTRACED, a full drain for the WNOHANG reaper
   loop).  Spawn results and signal-delivery success are parameters
   (`SpawnResult`, `killOk`), since they are decided by the OS.
 - `subprocess.Popen` handles are represented by their pid.
-/
import Mathlib

set_option maxHeartbeats 1000000

namespace MyShell

/-- Job status: the five shapes of status string used by `myshell.py`
("Running", "Stopped", "Exited(<code>)", "Signaled(<sig>)", "Done"). -/
inductive JobStatus where
  | Running
  | Stopped
  | Exited (code : Nat)
  | Signaled (sig : Nat)
  | Done
deriving Repr, DecidableEq

/-- Mirrors the terminal-status test of `prune_done_jobs`:
`status.startswith("Exited") or status.startswith("Signaled") or status == "Done"`. -/
def isTerminalB : JobStatus → Bool
  | .Exited _ => true
  | .Signaled _ => true
  | .Done => true
  | .Running => false
  | .Stopped => false

/-- Display rendering of a status, as the source's status strings. -/
def statusStr : JobStatus → String
  | .Running => "Running"
  | .Stopped => "Stopped"
  | .Exited c => "Exited(" ++ toString c ++ ")"
  | .Signaled g => "Signaled(" ++ toString g ++ ")"
  | .Done => "Done"

/-- One record of the `jobs` table:
`{pid, proc, cmdline, status, start_time, exitcode}` (the `proc` Popen
handle is represented by its pid). -/
structure Job where
  pid : Nat
  cmdline : String
  status : JobStatus
  start_time : Nat
  exitcode : Option Nat
deriving Repr, DecidableEq

/-- The in-place status mutation `job["status"] = st`. -/
def setStatusFn (st : JobStatus) (j : Job) : Job := { j with status := st }

/-- The in-place mutation `job["status"] = "Exited(c)"; job["exitcode"] = c`. -/
def exitedFn (c : Nat) (j : Job) : Job := { j with status := .Exited c, exitcode := some c }

/-- The in-place mutation applied by `update_job_status`. -/
def updStatusFn (status : JobStatus) (exitc : Option Nat) (j : Job) : Job :=
  { j with status := status,
           exitcode := match exitc with | some c => some c | none => j.exitcode }

/-- The in-place mutation applied by `mark_job_done`. -/
def doneFn (exitc : Option Nat) (j : Job) : Job :=
  match exitc with
  | some c => exitedFn c j
  | none => setStatusFn .Done j

/-- Kind of a child state change reported by `os.waitpid`
(WIFEXITED / WIFSIGNALED / WIFSTOPPED / WIFCONTINUED). -/
inductive WaitKind where
  | exited (code : Nat)
  | signaled (sig : Nat)
  | stopped (sig : Nat)
  | continued
deriving Repr, DecidableEq

/-- A kernel-side child state-change event awaiting collection by some
`waitpid` call.  `eid` identifies the event itself (each state change of
each child is a distinct event). -/
structure ChildEvent where
  eid : Nat
  pid : Nat
  kind : WaitKind
deriving Repr, DecidableEq

/-! ### Dictionary helpers (Python dict semantics on association lists) -/

/-- `d.get(k)`: value of the first entry with key `k`. -/
def dictLookup {α : Type} : List (Nat × α) → Nat → Option α
  | [], _ => none
  | (k0, v) :: t, k => if k0 = k then some v else dictLookup t k

/-- `d.pop(k, None)`: remove the entry with key `k`, if present. -/
def dictPop {α : Type} : List (Nat × α) → Nat → List (Nat × α)
  | [], _ => []
  | (k0, v) :: t, k => if k0 = k then t else (k0, v) :: dictPop t k

/-- In-place mutation `d[k]["field"] = ...` of the record stored at key `k`. -/
def dictModify {α : Type} : List (Nat × α) → Nat → (α → α) → List (Nat × α)
  | [], _, _ => []
  | (k0, v) :: t, k, f => if k0 = k then (k0, f v) :: t else (k0, v) :: dictModify t k f

/-- Item assignment `d[k] = v`: replace the entry in place, or append. -/
def assocInsert {α : Type} : List (Nat × α) → Nat → α → List (Nat × α)
  | [], k, v => [(k, v)]
  | (k0, v0) :: t, k, v => if k0 = k then (k0, v) :: t else (k0, v0) :: assocInsert t k v

/-! ### Shell state -/

/-- The module-level mutable state of `myshell.py`: the `jobs` OrderedDict,
the `next_job_id` counter, the `pid_to_jid` index and `foreground_pid`,
plus the kernel-side queue `pending` of unreaped child state changes. -/
structure ShellState where
  jobs : List (Nat × Job)
  next_job_id : Nat
  pid_to_jid : List (Nat × Nat)
  foreground_pid : Option Nat
  pending : List ChildEvent
deriving Repr, DecidableEq

/-- Initial state: empty tables, `next_job_id = 1`. -/
def initState : ShellState :=
  { jobs := [], next_job_id := 1, pid_to_jid := [], foreground_pid := none, pending := [] }

/-! ### Job helpers (`_get_next_job_id`, `add_job`, `update_job_status`,
`mark_job_done`, `find_job_by_jid`) -/

/-- `_get_next_job_id()`: return the counter and post-increment it. -/
def get_next_job_id (s : ShellState) : Nat × ShellState :=
  (s.next_job_id, { s with next_job_id := s.next_job_id + 1 })

/-- `add_job(proc, cmdline, status)`: allocate the next id, insert the
record, index the pid.  Returns the new state and the job id. -/
def add_job (s : ShellState) (pid : Nat) (cmdline : String) (status : JobStatus)
    (now : Nat) : ShellState × Nat :=
  let (jid, s1) := get_next_job_id s
  ({ s1 with
      jobs := s1.jobs ++ [(jid,
        { pid := pid, cmdline := cmdline, status := status,
          start_time := now, exitcode := none })],
      pid_to_jid := assocInsert s1.pid_to_jid pid jid }, jid)

/-- `update_job_status(pid, status, exitcode)`: via the pid index, mutate
the matching record in place; no-op when the pid does not resolve. -/
def update_job_status (s : ShellState) (pid : Nat) (status : JobStatus)
    (exitcode : Option Nat) : ShellState :=
  match dictLookup s.pid_to_jid pid with
  | none => s
  | some jid =>
    match dictLookup s.jobs jid with
    | none => s
    | some _ =>
      { s with jobs := dictModify s.jobs jid (updStatusFn status exitcode) }

/-- `mark_job_done(pid, exitcode)`: set the record's status to
`Exited(exitcode)` (recording the code) or to `Done` when no code is
supplied, then retire the pid index entry.  The record itself stays. -/
def mark_job_done (s : ShellState) (pid : Nat) (exitcode : Option Nat) : ShellState :=
  match dictLookup s.pid_to_jid pid with
  | none => s
  | some jid =>
    match dictLookup s.jobs jid with
    | none => s
    | some _ =>
      { s with
          jobs := dictModify s.jobs jid (doneFn exitcode),
          pid_to_jid := dictPop s.pid_to_jid pid }

/-- Helper for `pyInt`: accumulate decimal digits, failing on any
non-digit character. -/
def decDigitsAux : List Char → Nat → Option Nat
  | [], acc => some acc
  | c :: cs, acc =>
    if 48 ≤ c.toNat ∧ c.toNat ≤ 57 then decDigitsAux cs (acc * 10 + (c.toNat - 48))
    else none

/-- `int(token)` on a shell token: an optional minus sign followed by a
nonempty run of decimal digits.  (Python's `int` also strips whitespace
and accepts a leading `+`, but `shlex` tokens relevant to the claims
never carry those.) -/
def pyInt (t : String) : Option Int :=
  match t.data with
  | [] => none
  | '-' :: cs =>
    match cs with
    | [] => none
    | _ => (decDigitsAux cs 0).map fun n => -(n : Int)
  | cs => (decDigitsAux cs 0).map fun n => (n : Int)

/-- `token.startswith("%")`. -/
def startsPercent (t : String) : Bool :=
  match t.data with
  | c :: _ => c = '%'
  | [] => false

/-- `token[1:]`. -/
def strTail (t : String) : String := ⟨t.data.drop 1⟩

/-- `token.endswith("&")`. -/
def endsAmp (t : String) : Bool :=
  match t.data.getLast? with
  | some c => c = '&'
  | none => false

/-- `find_job_by_jid(jid)`: `jobs.get(jid)`.  The table is keyed by the
allocated (positive) ids, so negative queries find nothing. -/
def find_job_by_jid (s : ShellState) (i : Int) : Option Job :=
  if i < 0 then none else dictLookup s.jobs i.toNat

/-! ### The asynchronous reaper (`sigchld_handler`) -/

/-- Processing of one reaped event by the body of the `sigchld_handler`
loop: exited and signaled children are routed through `update_job_status`
followed by `mark_job_done` (which retires the pid index entry); stopped
and continued children only update the status in place. -/
def handleEvent (s : ShellState) (ev : ChildEvent) : ShellState :=
  match ev.kind with
  | .exited c => mark_job_done (update_job_status s ev.pid (.Exited c) (some c)) ev.pid (some c)
  | .signaled g => mark_job_done (update_job_status s ev.pid (.Signaled g) none) ev.pid none
  | .stopped _ => update_job_status s ev.pid .Stopped none
  | .continued => update_job_status s ev.pid .Running none

/-- `sigchld_handler`: drain every pending child state change with
`os.waitpid(-1, WNOHANG | WUNTRACED | WCONTINUED)` and apply each to the
registry; "no more children" ends the loop.  It never blocks and never
prints. -/
def sigchld_handler (s : ShellState) : ShellState :=
  { s.pending.foldl handleEvent s with pending := [] }

/-! ### The blocking pid-specific wait primitive -/

/-- Which pending events `os.waitpid(pid, WUNTRACED)` can report:
state changes of that pid; stop, exit and signal reports (WUNTRACED),
but not continue reports (no WCONTINUED here). -/
def fgWaitMatches (pid : Nat) (ev : ChildEvent) : Bool :=
  ev.pid = pid && (match ev.kind with | .continued => false | _ => true)

/-- The blocking `os.waitpid(pid, WUNTRACED)`: consume the first pending
event reportable for `pid`, leaving everything else queued.  `none`
models `ChildProcessError` — the pid has no reportable state change
because the child is gone (e.g. already collected by the reaper). -/
def extractFirstFg (pid : Nat) : List ChildEvent → Option ChildEvent × List ChildEvent
  | [] => (none, [])
  | ev :: t =>
    if fgWaitMatches pid ev then (some ev, t)
    else
      let r := extractFirstFg pid t
      (r.1, ev :: r.2)

/-! ### Job-control builtins -/

/-- The SIGCONT-and-mark-Running step at the top of `fg` (the killpg
failure is swallowed, so the state change is unconditional). -/
def fgRun (s : ShellState) (jid pid : Nat) : ShellState :=
  { s with jobs := dictModify s.jobs jid (setStatusFn .Running), foreground_pid := some pid }

/-- The blocking wait loop of `fg` on state `s1` (the record at `jid`
was just set `Running`, `pid` is its process). -/
def fgWait (s1 : ShellState) (jid pid : Nat) : ShellState × List String :=
  match extractFirstFg pid s1.pending with
  | (some ev, rest) =>
    match ev.kind with
    | .stopped _ =>
      ({ s1 with pending := rest,
                 jobs := dictModify s1.jobs jid (setStatusFn .Stopped),
                 pid_to_jid := assocInsert s1.pid_to_jid pid jid,
                 foreground_pid := none },
       ["\n[" ++ toString jid ++ "] " ++ toString pid ++ " Stopped"])
    | .exited c =>
      ({ s1 with pending := rest,
                 jobs := dictModify s1.jobs jid (exitedFn c),
                 pid_to_jid := dictPop s1.pid_to_jid pid,
                 foreground_pid := none }, [])
    | .signaled g =>
      ({ s1 with pending := rest,
                 jobs := dictModify s1.jobs jid (setStatusFn (.Signaled g)),
                 pid_to_jid := dictPop s1.pid_to_jid pid,
                 foreground_pid := none }, [])
    | .continued =>
      -- unreachable: `extractFirstFg` never reports a continue event
      ({ s1 with pending := rest, foreground_pid := none }, [])
  | (none, rest) =>
    -- ChildProcessError from waitpid, swallowed by `except Exception: pass`
    ({ s1 with pending := rest, foreground_pid := none }, [])

/-- `fg` after job selection: send SIGCONT to the group (failure
swallowed), set the record `Running`, occupy the foreground slot and
enter the blocking wait. -/
def fgWithJid (s : ShellState) (i : Int) : ShellState × List String :=
  match find_job_by_jid s i with
  | none => (s, ["fg: job " ++ toString i ++ " not found"])
  | some job => fgWait (fgRun s i.toNat job.pid) i.toNat job.pid

/-- `builtin_fg(args)`: parse the job id from `args[0]`, or select the
most recently inserted record when no argument is given. -/
def builtin_fg (s : ShellState) (args : List String) : ShellState × List String :=
  match args with
  | a :: _ =>
    match pyInt a with
    | none => (s, ["fg: bad job id"])
    | some i => fgWithJid s i
  | [] =>
    match (s.jobs.map Prod.fst).getLast? with
    | none => (s, ["fg: no current job"])
    | some j => fgWithJid s (j : Int)

/-- Rendering of the OSError raised by `os.getpgid`/`os.killpg` when the
target process no longer exists (`ProcessLookupError`). -/
def osErrorText : String := "No such process"

/-- `bg` after job selection: `os.killpg(os.getpgid(pid), SIGCONT)` runs
first; only if it succeeds (`killOk`) are the status set `Running`, the
pid index entry ensured and the announcement printed — an OS error skips
all three and is reported instead. -/
def bgWithJid (s : ShellState) (i : Int) (killOk : Bool) : ShellState × List String :=
  match find_job_by_jid s i with
  | none => (s, ["bg: job " ++ toString i ++ " not found"])
  | some job =>
    let jid := i.toNat
    if killOk then
      ({ s with jobs := dictModify s.jobs jid (setStatusFn .Running),
                pid_to_jid := assocInsert s.pid_to_jid job.pid jid },
       ["[" ++ toString jid ++ "] " ++ toString job.pid ++ " continued in background"])
    else
      (s, ["bg: " ++ osErrorText])

/-- `builtin_bg(args)`: parse the job id from `args[0]`, or select the
most recently inserted record when no argument is given. -/
def builtin_bg (s : ShellState) (args : List String) (killOk : Bool) :
    ShellState × List String :=
  match args with
  | a :: _ =>
    match pyInt a with
    | none => (s, ["bg: bad job id"])
    | some i => bgWithJid s i killOk
  | [] =>
    match (s.jobs.map Prod.fst).getLast? with
    | none => (s, ["bg: no current job"])
    | some j => bgWithJid s (j : Int) killOk

/-- A terminate signal dispatched by the `kill` builtin: either
`os.killpg(os.getpgid(pid), SIGTERM)` directed at the process group of a
job's pid, or `os.kill(pid, SIGTERM)` directed at the single process
named by a bare token. -/
inductive SigAction where
  | group (pid : Nat)
  | single (pid : Int)
deriving Repr, DecidableEq

/-- Handling of one `kill` token: `%N` resolves through the job table
and targets the process group; a bare integer targets that process
alone; anything unparseable is reported and skipped. -/
def killToken (s : ShellState) (token : String) : List String × List SigAction :=
  if startsPercent token then
    match pyInt (strTail token) with
    | none => (["kill: invalid pid/job: " ++ token], [])
    | some i =>
      match find_job_by_jid s i with
      | none => (["kill: % " ++ toString i ++ ": no such job"], [])
      | some job => ([], [SigAction.group job.pid])
  else
    match pyInt token with
    | none => (["kill: invalid pid/job: " ++ token], [])
    | some i => ([], [SigAction.single i])

/-- `builtin_kill(args)`: process every token; the registry is never
mutated.  Returns the (unchanged) state, the printed lines and the
dispatched signals. -/
def builtin_kill (s : ShellState) (args : List String) :
    ShellState × List String × List SigAction :=
  (s,
   match args with
   | [] => (["kill: missing pid/job"], [])
   | _ => args.foldl (fun acc tok =>
       let r := killToken s tok
       (acc.1 ++ r.1, acc.2 ++ r.2)) ([], []))

/-- `builtin_jobs(args)`: one listing line per record, in insertion
order: `[jid] pid status\tcmdline (age Ns)`. -/
def builtin_jobs (s : ShellState) (now : Nat) : ShellState × List String :=
  (s, s.jobs.map fun e =>
    "[" ++ toString e.1 ++ "] " ++ toString e.2.pid ++ " " ++ statusStr e.2.status ++
    "\t" ++ e.2.cmdline ++ " (age " ++ toString (now - e.2.start_time) ++ "s)")

/-! ### The launcher (`launch_external`) and the pruner -/

/-- Outcome of `subprocess.Popen(tokens, preexec_fn=os.setpgrp)`: the
new process (group leader) id, `FileNotFoundError`, or another OSError. -/
inductive SpawnResult where
  | ok (pid : Nat)
  | notFound
  | osError (msg : String)
deriving Repr, DecidableEq

/-- The foreground wait loop of `launch_external` on state `s1` (the
foreground slot already holds `pid`): a stop lazily registers the job as
`Stopped`; an exit or signal registers nothing; `ChildProcessError` is
swallowed. -/
def fgLaunchWait (s1 : ShellState) (pid : Nat) (cmdline : String) (now : Nat) :
    ShellState × List String × List Nat :=
  match extractFirstFg pid s1.pending with
  | (some ev, rest) =>
    match ev.kind with
    | .stopped _ =>
      ({ (add_job { s1 with pending := rest } pid cmdline .Stopped now).1 with
          foreground_pid := none },
       ["\n[" ++ toString (add_job { s1 with pending := rest } pid cmdline .Stopped now).2
          ++ "] " ++ toString pid ++ " Stopped"],
       [(add_job { s1 with pending := rest } pid cmdline .Stopped now).2])
    | _ => ({ s1 with pending := rest, foreground_pid := none }, [], [])
  | (none, rest) => ({ s1 with pending := rest, foreground_pid := none }, [], [])

/-- `launch_external(tokens, background)`.  A failed spawn reports one
line naming `tokens[0]` and creates nothing.  Background: register the
job as `Running` and announce `[jid] pid`.  Foreground: occupy the
foreground slot and block on the pid; a stop lazily registers the job as
`Stopped`; an exit or signal registers nothing; a `ChildProcessError`
is swallowed.  The third component lists the job ids registered. -/
def launch_external (s : ShellState) (tokens : List String) (background : Bool)
    (spawn : SpawnResult) (now : Nat) : ShellState × List String × List Nat :=
  let cmdline := " ".intercalate tokens
  match spawn with
  | .notFound => (s, [tokens.headD "" ++ ": command not found"], [])
  | .osError msg => (s, ["Error launching " ++ tokens.headD "" ++ ": " ++ msg], [])
  | .ok pid =>
    if background then
      let r := add_job s pid cmdline .Running now
      (r.1, ["[" ++ toString r.2 ++ "] " ++ toString pid], [r.2])
    else
      fgLaunchWait { s with foreground_pid := some pid } pid cmdline now

/-- `DONE_ENTRY_TTL`: retention window for terminal records. -/
def DONE_ENTRY_TTL : Nat := 60

/-- `prune_done_jobs()`: collect every record whose status is terminal
and whose age (from `start_time`) strictly exceeds the TTL, then pop
each collected id from the table.  Non-terminal records are never
collected. -/
def prune_done_jobs (s : ShellState) (now : Nat) : ShellState :=
  let to_remove := (s.jobs.filter fun e =>
    isTerminalB e.2.status && decide (DONE_ENTRY_TTL < now - e.2.start_time)).map Prod.fst
  { s with jobs := to_remove.foldl dictPop s.jobs }

/-! ### The dispatcher (`parse_and_execute`) and the interactive loop -/

/-- Outcome of `shlex.split(line.strip())`: the token list, or a
`ValueError` with its message (tokenization itself is an external
collaborator of the job-control core).  A blank line yields `toks []`. -/
inductive ShlexResult where
  | parseError (msg : String)
  | toks (tokens : List String)
deriving Repr, DecidableEq

/-- Background-marker handling: a final `&` token selects background and
is dropped; otherwise a trailing `&` glued to the last token is stripped
and selects background. -/
def stripBackground (tokens : List String) : List String × Bool :=
  match tokens.getLast? with
  | none => (tokens, false)
  | some last =>
    if last = "&" then (tokens.dropLast, true)
    else if endsAmp last && last ≠ "&" then
      (tokens.dropLast ++ [last.dropRight 1], true)
    else (tokens, false)

/-- Keys of the `builtins` dispatch table. -/
def builtinNames : List String :=
  ["cd", "pwd", "exit", "echo", "clear", "ls", "cat", "mkdir", "rmdir", "rm",
   "touch", "kill", "jobs", "fg", "bg"]

/-- Result of one dispatcher call.  `crash` models an exception that no
handler inside `parse_and_execute` catches, so it escapes to `main`'s
outer handler (ending the interactive loop); `exitShell` models the
`SystemExit` raised by the `exit` builtin. -/
inductive ExecResult where
  | ok (s : ShellState) (out : List String)
  | exitShell (s : ShellState) (out : List String)
  | crash (s : ShellState)
deriving Repr, DecidableEq

/-- `parse_and_execute(line)`: tokenization errors are reported and the
line is discarded; the background marker is stripped; builtins dispatch
through the table with their errors caught and printed; everything else
goes to `launch_external`.  When stripping the background marker leaves
no tokens (the line was a bare `&`), `cmd = tokens[0]` raises an
uncaught `IndexError`.  The filesystem builtins are out of scope
(spec section 1) and never touch job state. -/
def parse_and_execute (s : ShellState) (inp : ShlexResult) (now : Nat)
    (spawn : SpawnResult) (killOk : Bool) : ExecResult :=
  match inp with
  | .parseError msg => .ok s ["Parsing error: " ++ msg]
  | .toks tokens0 =>
    if tokens0 = [] then .ok s []
    else
      let p := stripBackground tokens0
      let background := p.2
      match p.1 with
      | [] => .crash s
      | cmd :: rest =>
        if cmd ∈ builtinNames then
          match cmd with
          | "kill" => let r := builtin_kill s rest; .ok r.1 r.2.1
          | "jobs" => let r := builtin_jobs s now; .ok r.1 r.2
          | "fg" => let r := builtin_fg s rest; .ok r.1 r.2
          | "bg" => let r := builtin_bg s rest killOk; .ok r.1 r.2
          | "exit" => .exitShell s ["Exiting shell."]
          | _ => .ok s []
        else
          let r := launch_external s (cmd :: rest) background spawn now
          .ok r.1 r.2.1

/-- One iteration's worth of external input to the interactive loop: the
tokenized line plus the OS-decided outcomes for this iteration. -/
structure LoopInput where
  inp : ShlexResult
  now : Nat
  spawn : SpawnResult
  killOk : Bool
deriving Repr, DecidableEq

/-- The `main` REPL body: dispatch each line, prune after it, continue;
a `SystemExit` ends the loop deliberately; any other escaping exception
is caught only by the handler *outside* the loop, which prints
`Shell error: ...` once and ends the shell, discarding all later input. -/
def main_loop : ShellState → List LoopInput → ShellState × List String
  | s, [] => (s, [])
  | s, li :: rest =>
    match parse_and_execute s li.inp li.now li.spawn li.killOk with
    | .ok s1 out =>
      let s2 := prune_done_jobs s1 li.now
      let r := main_loop s2 rest
      (r.1, out ++ r.2)
    | .exitShell s1 out => (s1, out)
    | .crash s1 => (s1, ["Shell error: list index out of range"])

/-! ### Public operations and reachable states -/

/-- One public operation on the registry: an OS event arrival, a reaper
run, a launch, an fg/bg/kill builtin call, or a pruner run. -/
inductive OpInstr where
  | pushEvent (ev : ChildEvent)
  | reap
  | launch (tokens : List String) (background : Bool) (spawn : SpawnResult) (now : Nat)
  | fgOp (args : List String)
  | bgOp (args : List String) (killOk : Bool)
  | killOp (args : List String)
  | pruneOp (now : Nat)

/-- Apply one operation; also report the job ids registered by it. -/
def applyOpA (s : ShellState) : OpInstr → ShellState × List Nat
  | .pushEvent ev => ({ s with pending := s.pending ++ [ev] }, [])
  | .reap => (sigchld_handler s, [])
  | .launch toks bg sp now => let r := launch_external s toks bg sp now; (r.1, r.2.2)
  | .fgOp args => ((builtin_fg s args).1, [])
  | .bgOp args k => ((builtin_bg s args k).1, [])
  | .killOp args => ((builtin_kill s args).1, [])
  | .pruneOp now => (prune_done_jobs s now, [])

/-- Apply one operation (state part). -/
def applyOp (s : ShellState) (op : OpInstr) : ShellState := (applyOpA s op).1

/-- OS consistency of an operation: a successful spawn yields a pid that
is not the pid of a currently live (indexed) job — the OS never reuses
the pid of a live process. -/
def OpOk (s : ShellState) : OpInstr → Prop
  | .launch _ _ (.ok pid) _ => dictLookup s.pid_to_jid pid = none
  | _ => True

instance (s : ShellState) (op : OpInstr) : Decidable (OpOk s op) := by
  unfold OpOk; cases op with
  | launch toks bg sp now => cases sp <;> simp <;> infer_instance
  | _ => simp; infer_instance

/-- States reachable from the fresh shell by public operations. -/
inductive Reachable : ShellState → Prop
  | init : Reachable initState
  | step {s : ShellState} (op : OpInstr) : Reachable s → OpOk s op → Reachable (applyOp s op)

/-- Run a sequence of operations, collecting every registered job id. -/
def runTraceA : ShellState → List OpInstr → ShellState × List Nat
  | s, [] => (s, [])
  | s, op :: ops =>
    let r := applyOpA s op
    let r2 := runTraceA r.1 ops
    (r2.1, r.2 ++ r2.2)

/-! ### Dictionary lemmas -/

theorem fst_mem_keys {α : Type} {l : List (Nat × α)} {e : Nat × α} (h : e ∈ l) :
    e.1 ∈ l.map Prod.fst :=
  List.mem_map_of_mem Prod.fst h

theorem dictLookup_eq_none_iff {α : Type} (l : List (Nat × α)) (k : Nat) :
    dictLookup l k = none ↔ k ∉ l.map Prod.fst := by
  induction l with
  | nil => simp [dictLookup]
  | cons e t ih =>
    obtain ⟨k0, v⟩ := e
    by_cases h : k0 = k
    · subst h; simp [dictLookup]
    · simp [dictLookup, h, Ne.symm h, ih]

theorem mem_of_dictLookup {α : Type} {l : List (Nat × α)} {k : Nat} {v : α}
    (h : dictLookup l k = some v) : (k, v) ∈ l := by
  induction l with
  | nil => simp [dictLookup] at h
  | cons e t ih =>
    obtain ⟨k0, v0⟩ := e
    by_cases hk : k0 = k
    · subst hk
      simp [dictLookup] at h
      simp [h]
    · simp [dictLookup, hk] at h
      simp [ih h]

theorem dictLookup_of_mem {α : Type} {l : List (Nat × α)}
    (hnd : (l.map Prod.fst).Nodup) {k : Nat} {v : α} (h : (k, v) ∈ l) :
    dictLookup l k = some v := by
  induction l with
  | nil => simp at h
  | cons e t ih =>
    obtain ⟨k0, v0⟩ := e
    simp only [List.map_cons, List.nodup_cons] at hnd
    rcases List.mem_cons.mp h with h1 | h1
    · cases h1; simp [dictLookup]
    · have hne : k0 ≠ k := by
        intro he; subst he; exact hnd.1 (fst_mem_keys h1)
      simp [dictLookup, hne, ih hnd.2 h1]

theorem keys_dictModify {α : Type} (l : List (Nat × α)) (k : Nat) (f : α → α) :
    (dictModify l k f).map Prod.fst = l.map Prod.fst := by
  induction l with
  | nil => simp [dictModify]
  | cons e t ih =>
    obtain ⟨k0, v⟩ := e
    by_cases h : k0 = k <;> simp [dictModify, h, ih]

theorem dictLookup_dictModify_self {α : Type} (l : List (Nat × α)) (k : Nat) (f : α → α) :
    dictLookup (dictModify l k f) k = (dictLookup l k).map f := by
  induction l with
  | nil => simp [dictModify, dictLookup]
  | cons e t ih =>
    obtain ⟨k0, v⟩ := e
    by_cases h : k0 = k <;> simp [dictModify, dictLookup, h, ih]

theorem dictLookup_dictModify_ne {α : Type} (l : List (Nat × α)) {k k2 : Nat} (f : α → α)
    (h : k2 ≠ k) : dictLookup (dictModify l k f) k2 = dictLookup l k2 := by
  induction l with
  | nil => simp [dictModify]
  | cons e t ih =>
    obtain ⟨k0, v⟩ := e
    by_cases h0 : k0 = k
    · subst h0; simp [dictModify, dictLookup, Ne.symm h]
    · by_cases h2 : k0 = k2 <;> simp [dictModify, dictLookup, h0, h2, h, ih]

theorem mem_dictModify_of_ne {α : Type} {l : List (Nat × α)} {k : Nat} {f : α → α}
    {e : Nat × α} (he : e ∈ dictModify l k f) (hne : e.1 ≠ k) : e ∈ l := by
  induction l with
  | nil => simp [dictModify] at he
  | cons p t ih =>
    obtain ⟨k0, v⟩ := p
    by_cases h : k0 = k
    · subst h
      rcases List.mem_cons.mp (by simpa [dictModify] using he) with h1 | h1
      · exfalso; exact hne (by simp [h1])
      · simp [h1]
    · rcases List.mem_cons.mp (by simpa [dictModify, h] using he) with h1 | h1
      · simp [h1]
      · simp [ih h1]

theorem keys_dictPop_sublist {α : Type} (l : List (Nat × α)) (k : Nat) :
    ((dictPop l k).map Prod.fst).Sublist (l.map Prod.fst) := by
  induction l with
  | nil => simp [dictPop]
  | cons e t ih =>
    obtain ⟨k0, v⟩ := e
    by_cases h : k0 = k
    · simp only [dictPop, if_pos h]
      exact List.sublist_cons_self k0 (t.map Prod.fst)
    · simpa [dictPop, h] using ih.cons₂ k0

theorem mem_dictPop {α : Type} {l : List (Nat × α)} (hnd : (l.map Prod.fst).Nodup)
    (k : Nat) (e : Nat × α) : e ∈ dictPop l k ↔ e ∈ l ∧ e.1 ≠ k := by
  induction l with
  | nil => simp [dictPop]
  | cons p t ih =>
    obtain ⟨k0, v⟩ := p
    simp only [List.map_cons, List.nodup_cons] at hnd
    by_cases h : k0 = k
    · subst h
      simp only [dictPop, if_pos rfl, List.mem_cons]
      constructor
      · intro he
        refine ⟨Or.inr he, fun hh => hnd.1 ?_⟩
        exact hh ▸ fst_mem_keys he
      · rintro ⟨h1 | h1, h2⟩
        · exfalso; exact h2 (by simp [h1])
        · exact h1
    · simp only [dictPop, if_neg h, List.mem_cons, ih hnd.2]
      constructor
      · rintro (h1 | ⟨h1, h2⟩)
        · exact ⟨Or.inl h1, by simp [h1, h]⟩
        · exact ⟨Or.inr h1, h2⟩
      · rintro ⟨h1 | h1, h2⟩
        · exact Or.inl h1
        · exact Or.inr ⟨h1, h2⟩

theorem dictLookup_dictPop_ne {α : Type} (l : List (Nat × α)) {k k2 : Nat}
    (h : k2 ≠ k) : dictLookup (dictPop l k) k2 = dictLookup l k2 := by
  induction l with
  | nil => simp [dictPop]
  | cons e t ih =>
    obtain ⟨k0, v⟩ := e
    by_cases h0 : k0 = k
    · subst h0; simp [dictPop, dictLookup, Ne.symm h]
    · by_cases h2 : k0 = k2 <;> simp [dictPop, dictLookup, h0, h2, h, ih]

theorem assocInsert_of_not_mem {α : Type} {l : List (Nat × α)} {k : Nat}
    (h : k ∉ l.map Prod.fst) (v : α) : assocInsert l k v = l ++ [(k, v)] := by
  induction l with
  | nil => simp [assocInsert]
  | cons e t ih =>
    obtain ⟨k0, v0⟩ := e
    simp only [List.map_cons, List.mem_cons] at h
    push_neg at h
    simp [assocInsert, Ne.symm h.1, ih h.2]

theorem keys_assocInsert_of_mem {α : Type} {l : List (Nat × α)} {k : Nat}
    (hm : k ∈ l.map Prod.fst) (v : α) :
    (assocInsert l k v).map Prod.fst = l.map Prod.fst := by
  induction l with
  | nil => simp at hm
  | cons p t ih =>
    obtain ⟨k1, v1⟩ := p
    by_cases h1 : k1 = k
    · simp [assocInsert, h1]
    · simp only [List.map_cons, List.mem_cons] at hm
      rcases hm with hm | hm
      · exact absurd hm.symm h1
      · simp [assocInsert, h1, ih hm]

theorem keys_assocInsert_nodup {α : Type} {l : List (Nat × α)}
    (hnd : (l.map Prod.fst).Nodup) (k : Nat) (v : α) :
    ((assocInsert l k v).map Prod.fst).Nodup := by
  by_cases hm : k ∈ l.map Prod.fst
  · rw [keys_assocInsert_of_mem hm]; exact hnd
  · rw [assocInsert_of_not_mem hm]
    simp only [List.map_append, List.map_cons, List.map_nil]
    rw [List.nodup_append]
    refine ⟨hnd, by simp, ?_⟩
    intro a ha hb
    simp only [List.mem_singleton] at hb
    subst hb
    exact hm ha

theorem dictLookup_assocInsert_self {α : Type} (l : List (Nat × α)) (k : Nat) (v : α) :
    dictLookup (assocInsert l k v) k = some v := by
  induction l with
  | nil => simp [assocInsert, dictLookup]
  | cons e t ih =>
    obtain ⟨k0, v0⟩ := e
    by_cases h : k0 = k <;> simp [assocInsert, dictLookup, h, ih]

theorem dictLookup_assocInsert_ne {α : Type} (l : List (Nat × α)) {k k2 : Nat} (v : α)
    (h : k2 ≠ k) : dictLookup (assocInsert l k v) k2 = dictLookup l k2 := by
  induction l with
  | nil => simp [assocInsert, dictLookup, Ne.symm h]
  | cons e t ih =>
    obtain ⟨k0, v0⟩ := e
    by_cases h0 : k0 = k
    · subst h0; simp [assocInsert, dictLookup, Ne.symm h]
    · by_cases h2 : k0 = k2 <;> simp [assocInsert, dictLookup, h0, h2, h, ih]

theorem mem_assocInsert {α : Type} {l : List (Nat × α)} (hnd : (l.map Prod.fst).Nodup)
    {k : Nat} {v : α} {e : Nat × α} (he : e ∈ assocInsert l k v) :
    e = (k, v) ∨ (e ∈ l ∧ e.1 ≠ k) := by
  induction l with
  | nil => simp [assocInsert] at he; simp [he]
  | cons p t ih =>
    obtain ⟨k0, v0⟩ := p
    simp only [List.map_cons, List.nodup_cons] at hnd
    by_cases h : k0 = k
    · subst h
      rcases List.mem_cons.mp (by simpa [assocInsert] using he) with h1 | h1
      · exact Or.inl h1
      · refine Or.inr ⟨List.mem_cons_of_mem _ h1, fun h2 => hnd.1 ?_⟩
        exact h2 ▸ fst_mem_keys h1
    · rcases List.mem_cons.mp (by simpa [assocInsert, h] using he) with h1 | h1
      · exact Or.inr ⟨by simp [h1], by simp [h1, h]⟩
      · rcases ih hnd.2 h1 with h2 | h2
        · exact Or.inl h2
        · exact Or.inr ⟨List.mem_cons_of_mem _ h2.1, h2.2⟩

theorem dictLookup_append_of_some {α : Type} {l t : List (Nat × α)} {k : Nat} {v : α}
    (h : dictLookup l k = some v) : dictLookup (l ++ t) k = some v := by
  induction l with
  | nil => simp [dictLookup] at h
  | cons e l2 ih =>
    obtain ⟨k0, v0⟩ := e
    by_cases h0 : k0 = k
    · simp [dictLookup, h0] at h ⊢; exact h
    · simp [dictLookup, h0] at h ⊢; exact ih h

theorem dictLookup_append_of_none {α : Type} {l : List (Nat × α)} (t : List (Nat × α))
    {k : Nat} (h : dictLookup l k = none) : dictLookup (l ++ t) k = dictLookup t k := by
  induction l with
  | nil => simp
  | cons e l2 ih =>
    obtain ⟨k0, v0⟩ := e
    by_cases h0 : k0 = k
    · simp [dictLookup, h0] at h
    · simp [dictLookup, h0] at h ⊢; exact ih h

theorem value_eq_of_mem {α : Type} {l : List (Nat × α)} (hnd : (l.map Prod.fst).Nodup)
    {k : Nat} {v1 v2 : α} (h1 : (k, v1) ∈ l) (h2 : (k, v2) ∈ l) : v1 = v2 := by
  have e1 := dictLookup_of_mem hnd h1
  have e2 := dictLookup_of_mem hnd h2
  rw [e1] at e2
  exact Option.some.inj e2

theorem keys_foldl_dictPop_sublist {α : Type} :
    ∀ (rem : List Nat) (l : List (Nat × α)),
      ((rem.foldl dictPop l).map Prod.fst).Sublist (l.map Prod.fst)
  | [], _ => List.Sublist.refl _
  | r :: rem, l =>
    (keys_foldl_dictPop_sublist rem (dictPop l r)).trans (keys_dictPop_sublist l r)

theorem dictLookup_foldl_dictPop {α : Type} :
    ∀ (rem : List Nat) (l : List (Nat × α)) (k : Nat), k ∉ rem →
      dictLookup (rem.foldl dictPop l) k = dictLookup l k := by
  intro rem
  induction rem with
  | nil => intro l k _; rfl
  | cons r rem ih =>
    intro l k hk
    simp only [List.mem_cons, not_or] at hk
    simp only [List.foldl_cons]
    rw [ih _ _ hk.2, dictLookup_dictPop_ne _ hk.1]

theorem mem_foldl_dictPop {α : Type} :
    ∀ (rem : List Nat) (l : List (Nat × α)), (l.map Prod.fst).Nodup →
      ∀ e : Nat × α, (e ∈ rem.foldl dictPop l ↔ e ∈ l ∧ e.1 ∉ rem) := by
  intro rem
  induction rem with
  | nil => intro l _ e; simp
  | cons r rem ih =>
    intro l hnd e
    simp only [List.foldl_cons]
    rw [ih _ ((keys_dictPop_sublist l r).nodup hnd), mem_dictPop hnd]
    simp only [List.mem_cons, not_or]
    tauto

/-! ### Registry invariants -/

/-- The forward half of the index invariant: every pid-index entry
resolves to a registered record with that pid whose status is
non-terminal (`Running` or `Stopped`). -/
def IndexForward (s : ShellState) : Prop :=
  ∀ e ∈ s.pid_to_jid, ∃ job, dictLookup s.jobs e.2 = some job ∧
    job.pid = e.1 ∧ isTerminalB job.status = false

/-- Structural invariant of the registry: job-table keys are below the
id counter and distinct, index keys are distinct, and every index entry
points to a live non-terminal record. -/
def Inv (s : ShellState) : Prop :=
  (∀ k ∈ s.jobs.map Prod.fst, k < s.next_job_id) ∧
  (s.jobs.map Prod.fst).Nodup ∧
  (s.pid_to_jid.map Prod.fst).Nodup ∧
  IndexForward s

theorem inv_congr {s1 s2 : ShellState} (hj : s2.jobs = s1.jobs)
    (hn : s2.next_job_id = s1.next_job_id) (hi : s2.pid_to_jid = s1.pid_to_jid)
    (h : Inv s1) : Inv s2 := by
  obtain ⟨h1, h2, h3, h4⟩ := h
  refine ⟨?_, ?_, ?_, ?_⟩
  · rw [hj, hn]; exact h1
  · rw [hj]; exact h2
  · rw [hi]; exact h3
  · intro e he
    rw [hi] at he
    obtain ⟨job, hjob, hp, hs⟩ := h4 e he
    exact ⟨job, by rw [hj]; exact hjob, hp, hs⟩

theorem index_value_unique {s : ShellState} (h : Inv s) {p1 p2 j : Nat}
    (h1 : (p1, j) ∈ s.pid_to_jid) (h2 : (p2, j) ∈ s.pid_to_jid) : p1 = p2 := by
  obtain ⟨-, hndj, -, hf⟩ := h
  obtain ⟨job1, e1, hp1, -⟩ := hf _ h1
  obtain ⟨job2, e2, hp2, -⟩ := hf _ h2
  rw [e1] at e2
  have hj12 : job1 = job2 := Option.some.inj e2
  have hq1 : p1 = job1.pid := hp1.symm
  have hq2 : p2 = job2.pid := hp2.symm
  rw [hq1, hq2, hj12]

/-- Modifying the record at a key, provided the modification keeps the
pid and a non-terminal status, preserves the invariant (the foreground
slot and the kernel queue are irrelevant to it). -/
theorem inv_modify_at {s : ShellState} (h : Inv s) {jid : Nat} {job : Job}
    (hj : dictLookup s.jobs jid = some job) (f : Job → Job)
    (hpid : (f job).pid = job.pid) (hst : isTerminalB (f job).status = false)
    (fp : Option Nat) (pd : List ChildEvent) :
    Inv { s with jobs := dictModify s.jobs jid f, foreground_pid := fp, pending := pd } := by
  obtain ⟨h1, h2, h3, h4⟩ := h
  refine ⟨?_, ?_, h3, ?_⟩
  · intro k hk; rw [keys_dictModify] at hk; exact h1 k hk
  · rw [keys_dictModify]; exact h2
  · intro e he
    obtain ⟨job1, hjob1, hp1, hs1⟩ := h4 e he
    by_cases hje : e.2 = jid
    · rw [hje, hj] at hjob1
      have hjj : job1 = job := (Option.some.inj hjob1).symm
      refine ⟨f job, ?_, ?_, hst⟩
      · show dictLookup (dictModify s.jobs jid f) e.2 = some (f job)
        rw [hje, dictLookup_dictModify_self, hj]
        rfl
      · rw [hpid, ← hjj]; exact hp1
    · refine ⟨job1, ?_, hp1, hs1⟩
      show dictLookup (dictModify s.jobs jid f) e.2 = some job1
      rw [dictLookup_dictModify_ne _ _ hje]
      exact hjob1

/-- Modifying the record at a key and pointing its pid-index entry at it
(`pid_to_jid[pid] = jid`, as the stop path of `fg` and the resume path
of `bg` do) preserves the invariant, again provided the modified record
stays non-terminal with its pid intact. -/
theorem inv_modify_insert {s : ShellState} (h : Inv s) {jid : Nat} {job : Job}
    (hj : dictLookup s.jobs jid = some job) (f : Job → Job)
    (hpid : (f job).pid = job.pid) (hst : isTerminalB (f job).status = false)
    (fp : Option Nat) (pd : List ChildEvent) :
    Inv { s with jobs := dictModify s.jobs jid f,
                 pid_to_jid := assocInsert s.pid_to_jid job.pid jid,
                 foreground_pid := fp, pending := pd } := by
  obtain ⟨h1, h2, h3, h4⟩ := h
  refine ⟨?_, ?_, ?_, ?_⟩
  · intro k hk; rw [keys_dictModify] at hk; exact h1 k hk
  · rw [keys_dictModify]; exact h2
  · exact keys_assocInsert_nodup h3 _ _
  · intro e he
    rcases mem_assocInsert h3 he with hee | ⟨hmem, hne⟩
    · subst hee
      refine ⟨f job, ?_, hpid, hst⟩
      show dictLookup (dictModify s.jobs jid f) jid = some (f job)
      rw [dictLookup_dictModify_self, hj]
      rfl
    · obtain ⟨job1, hjob1, hp1, hs1⟩ := h4 e hmem
      have hje : e.2 ≠ jid := by
        intro hh
        rw [hh, hj] at hjob1
        have := Option.some.inj hjob1
        exact hne (by rw [← hp1, this])
      exact ⟨job1, by
        show dictLookup (dictModify s.jobs jid f) e.2 = some job1
        rw [dictLookup_dictModify_ne _ _ hje]; exact hjob1, hp1, hs1⟩

/-- Modifying the record at a key arbitrarily while popping the index
entry for its pid (the terminal paths of `fg` and of the reaper)
preserves the invariant: the possibly-terminal record is exactly the
one whose entry is retired. -/
theorem inv_modify_pop {s : ShellState} (h : Inv s) {jid : Nat} {job : Job}
    (hj : dictLookup s.jobs jid = some job) (f : Job → Job)
    (fp : Option Nat) (pd : List ChildEvent) :
    Inv { s with jobs := dictModify s.jobs jid f,
                 pid_to_jid := dictPop s.pid_to_jid job.pid,
                 foreground_pid := fp, pending := pd } := by
  obtain ⟨h1, h2, h3, h4⟩ := h
  refine ⟨?_, ?_, (keys_dictPop_sublist _ _).nodup h3, ?_⟩
  · intro k hk; rw [keys_dictModify] at hk; exact h1 k hk
  · rw [keys_dictModify]; exact h2
  · intro e he
    rw [mem_dictPop h3] at he
    obtain ⟨hmem, hne⟩ := he
    obtain ⟨job1, hjob1, hp1, hs1⟩ := h4 e hmem
    have hje : e.2 ≠ jid := by
      intro hh
      rw [hh, hj] at hjob1
      have := Option.some.inj hjob1
      exact hne (by rw [← hp1, this])
    exact ⟨job1, by
      show dictLookup (dictModify s.jobs jid f) e.2 = some job1
      rw [dictLookup_dictModify_ne _ _ hje]; exact hjob1, hp1, hs1⟩

/-! Equation lemmas for the branchy registry mutators. -/

theorem update_job_status_def (s : ShellState) (pid : Nat) (status : JobStatus)
    (exitc : Option Nat) : update_job_status s pid status exitc =
    match dictLookup s.pid_to_jid pid with
    | none => s
    | some jid =>
      match dictLookup s.jobs jid with
      | none => s
      | some _ => { s with jobs := dictModify s.jobs jid (updStatusFn status exitc) } := rfl

theorem mark_job_done_def (s : ShellState) (pid : Nat) (exitc : Option Nat) :
    mark_job_done s pid exitc =
    match dictLookup s.pid_to_jid pid with
    | none => s
    | some jid =>
      match dictLookup s.jobs jid with
      | none => s
      | some _ => { s with jobs := dictModify s.jobs jid (doneFn exitc),
                           pid_to_jid := dictPop s.pid_to_jid pid } := rfl

theorem update_job_status_none {s : ShellState} {pid : Nat} (status : JobStatus)
    (exitc : Option Nat) (hm : dictLookup s.pid_to_jid pid = none) :
    update_job_status s pid status exitc = s := by
  rw [update_job_status_def]
  simp only [hm]

theorem update_job_status_nojob {s : ShellState} {pid jid : Nat} (status : JobStatus)
    (exitc : Option Nat) (hm : dictLookup s.pid_to_jid pid = some jid)
    (hjj : dictLookup s.jobs jid = none) :
    update_job_status s pid status exitc = s := by
  rw [update_job_status_def]
  simp only [hm, hjj]

theorem update_job_status_some {s : ShellState} {pid jid : Nat} {job : Job}
    (status : JobStatus) (exitc : Option Nat)
    (hm : dictLookup s.pid_to_jid pid = some jid) (hjj : dictLookup s.jobs jid = some job) :
    update_job_status s pid status exitc =
      { s with jobs := dictModify s.jobs jid (updStatusFn status exitc) } := by
  rw [update_job_status_def]
  simp only [hm, hjj]

theorem mark_job_done_none {s : ShellState} {pid : Nat} (exitc : Option Nat)
    (hm : dictLookup s.pid_to_jid pid = none) : mark_job_done s pid exitc = s := by
  rw [mark_job_done_def]
  simp only [hm]

theorem mark_job_done_nojob {s : ShellState} {pid jid : Nat} (exitc : Option Nat)
    (hm : dictLookup s.pid_to_jid pid = some jid) (hjj : dictLookup s.jobs jid = none) :
    mark_job_done s pid exitc = s := by
  rw [mark_job_done_def]
  simp only [hm, hjj]

theorem mark_job_done_some {s : ShellState} {pid jid : Nat} {job : Job} (exitc : Option Nat)
    (hm : dictLookup s.pid_to_jid pid = some jid) (hjj : dictLookup s.jobs jid = some job) :
    mark_job_done s pid exitc =
      { s with jobs := dictModify s.jobs jid (doneFn exitc),
               pid_to_jid := dictPop s.pid_to_jid pid } := by
  rw [mark_job_done_def]
  simp only [hm, hjj]

/-- `update_job_status` with a non-terminal status preserves the invariant. -/
theorem inv_update_job_status {s : ShellState} (h : Inv s) (pid : Nat)
    (status : JobStatus) (hst : isTerminalB status = false) (exitc : Option Nat) :
    Inv (update_job_status s pid status exitc) := by
  rcases hm : dictLookup s.pid_to_jid pid with - | jid
  · rw [update_job_status_none status exitc hm]; exact h
  · rcases hjj : dictLookup s.jobs jid with - | job
    · rw [update_job_status_nojob status exitc hm hjj]; exact h
    · rw [update_job_status_some status exitc hm hjj]
      have := inv_modify_at h hjj (updStatusFn status exitc) rfl hst
        s.foreground_pid s.pending
      exact inv_congr rfl rfl rfl this

/-- `update_job_status` followed by `mark_job_done` at the same pid (the
reaper's exit and signal paths) preserves the invariant. -/
theorem inv_update_then_done {s : ShellState} (h : Inv s) (pid : Nat)
    (status : JobStatus) (e1 e2 : Option Nat) :
    Inv (mark_job_done (update_job_status s pid status e1) pid e2) := by
  rcases hm : dictLookup s.pid_to_jid pid with - | jid
  · rw [update_job_status_none status e1 hm, mark_job_done_none e2 hm]; exact h
  · rcases hjj : dictLookup s.jobs jid with - | job
    · rw [update_job_status_nojob status e1 hm hjj, mark_job_done_nojob e2 hm hjj]; exact h
    · have hij : (pid, jid) ∈ s.pid_to_jid := mem_of_dictLookup hm
      rw [update_job_status_some status e1 hm hjj]
      have hm1 : dictLookup ({ s with jobs := dictModify s.jobs jid (updStatusFn status e1) } : ShellState).pid_to_jid pid = some jid := hm
      have hjj1 : dictLookup ({ s with jobs := dictModify s.jobs jid (updStatusFn status e1) } : ShellState).jobs jid = some (updStatusFn status e1 job) := by
        show dictLookup (dictModify s.jobs jid (updStatusFn status e1)) jid = _
        rw [dictLookup_dictModify_self, hjj]
        rfl
      rw [mark_job_done_some e2 hm1 hjj1]
      obtain ⟨h1, h2, h3, h4⟩ := h
      refine ⟨?_, ?_, (keys_dictPop_sublist _ _).nodup h3, ?_⟩
      · intro k hk
        simp only [keys_dictModify] at hk ⊢
        exact h1 k hk
      · simp only [keys_dictModify]
        exact h2
      · intro e he
        simp only at he
        rw [mem_dictPop h3] at he
        obtain ⟨hmem, hne⟩ := he
        obtain ⟨job1, hjob1, hp1, hs1⟩ := h4 e hmem
        have hje : e.2 ≠ jid := by
          intro hh
          have he2 : (e.1, jid) ∈ s.pid_to_jid := by rw [← hh]; exact hmem
          exact hne (index_value_unique ⟨h1, h2, h3, h4⟩ he2 hij)
        refine ⟨job1, ?_, hp1, hs1⟩
        show dictLookup (dictModify (dictModify s.jobs jid (updStatusFn status e1)) jid
          (doneFn e2)) e.2 = some job1
        rw [dictLookup_dictModify_ne _ _ hje, dictLookup_dictModify_ne _ _ hje]
        exact hjob1

/-- One reaper event preserves the invariant. -/
theorem inv_handleEvent {s : ShellState} (h : Inv s) (ev : ChildEvent) :
    Inv (handleEvent s ev) := by
  unfold handleEvent
  rcases ev with ⟨eid, pid, kind⟩
  cases kind with
  | exited c => exact inv_update_then_done h pid _ _ _
  | signaled g => exact inv_update_then_done h pid _ _ _
  | stopped g => exact inv_update_job_status h pid .Stopped rfl none
  | continued => exact inv_update_job_status h pid .Running rfl none

/-- A full reaper run preserves the invariant. -/
theorem inv_sigchld_handler {s : ShellState} (h : Inv s) : Inv (sigchld_handler s) := by
  have hfold : ∀ (l : List ChildEvent) (t : ShellState), Inv t → Inv (l.foldl handleEvent t) := by
    intro l
    induction l with
    | nil => intro t ht; exact ht
    | cons ev l2 ih => intro t ht; exact ih _ (inv_handleEvent ht ev)
  exact inv_congr rfl rfl rfl (hfold s.pending s h)

/-- Unfolded form of `add_job`. -/
theorem add_job_eq (s : ShellState) (pid : Nat) (cmdline : String) (status : JobStatus)
    (now : Nat) : add_job s pid cmdline status now =
      ({ s with next_job_id := s.next_job_id + 1,
                jobs := s.jobs ++ [(s.next_job_id,
                  { pid := pid, cmdline := cmdline, status := status,
                    start_time := now, exitcode := none })],
                pid_to_jid := assocInsert s.pid_to_jid pid s.next_job_id },
       s.next_job_id) := rfl

/-- `add_job` with an OS-fresh pid and a non-terminal status preserves
the invariant. -/
theorem inv_add_job {s : ShellState} (h : Inv s) {pid : Nat} (cmdline : String)
    (status : JobStatus) (hst : isTerminalB status = false) (now : Nat)
    (hfresh : dictLookup s.pid_to_jid pid = none) :
    Inv (add_job s pid cmdline status now).1 := by
  obtain ⟨h1, h2, h3, h4⟩ := h
  have hkfresh : pid ∉ s.pid_to_jid.map Prod.fst := (dictLookup_eq_none_iff _ _).mp hfresh
  have hjidfresh : s.next_job_id ∉ s.jobs.map Prod.fst := by
    intro hmem
    exact absurd (h1 _ hmem) (lt_irrefl _)
  rw [add_job_eq]
  refine ⟨?_, ?_, keys_assocInsert_nodup h3 _ _, ?_⟩
  · intro k hk
    simp only [List.map_append, List.map_cons, List.map_nil, List.mem_append,
      List.mem_singleton] at hk
    rcases hk with hk | hk
    · exact Nat.lt_succ_of_lt (h1 k hk)
    · subst hk; exact Nat.lt_succ_self _
  · simp only [List.map_append, List.map_cons, List.map_nil]
    rw [List.nodup_append]
    refine ⟨h2, by simp, ?_⟩
    intro a ha hb
    simp only [List.mem_singleton] at hb
    subst hb
    exact hjidfresh ha
  · intro e he
    rcases mem_assocInsert h3 he with hee | ⟨hmem, -⟩
    · subst hee
      refine ⟨{ pid := pid, cmdline := cmdline, status := status, start_time := now, exitcode := none }, ?_, rfl, hst⟩
      show dictLookup (s.jobs ++ [(s.next_job_id, _)]) s.next_job_id = _
      rw [dictLookup_append_of_none _ ((dictLookup_eq_none_iff _ _).mpr hjidfresh)]
      simp [dictLookup]
    · obtain ⟨job1, hjob1, hp1, hs1⟩ := h4 e hmem
      exact ⟨job1, dictLookup_append_of_some hjob1, hp1, hs1⟩

/-- Extracting the table lookup from a successful `find_job_by_jid`. -/
theorem find_job_some {s : ShellState} {i : Int} {job : Job}
    (hf : find_job_by_jid s i = some job) : dictLookup s.jobs i.toNat = some job := by
  unfold find_job_by_jid at hf
  by_cases hneg : i < 0
  · rw [if_pos hneg] at hf; cases hf
  · rwa [if_neg hneg] at hf

/-- The SIGCONT-and-set-Running step of `fg` preserves the invariant. -/
theorem inv_fgRun {s : ShellState} (h : Inv s) {jid : Nat} {job : Job}
    (hj : dictLookup s.jobs jid = some job) (pid : Nat) : Inv (fgRun s jid pid) := by
  unfold fgRun
  exact inv_congr rfl rfl rfl
    (inv_modify_at h hj (setStatusFn .Running) rfl rfl (some pid) s.pending)

/-- Lookup of the record just set `Running` by `fgRun`. -/
theorem lookup_fgRun {s : ShellState} {jid : Nat} {job : Job}
    (hj : dictLookup s.jobs jid = some job) (pid : Nat) :
    dictLookup (fgRun s jid pid).jobs jid = some (setStatusFn .Running job) := by
  show dictLookup (dictModify s.jobs jid (setStatusFn .Running)) jid = _
  rw [dictLookup_dictModify_self, hj]
  rfl

/-- The blocking wait loop of `fg` preserves the invariant. -/
theorem inv_fgWait {s1 : ShellState} (h : Inv s1) {jid : Nat} {job1 : Job} (pid : Nat)
    (hj : dictLookup s1.jobs jid = some job1) (hpid : job1.pid = pid) :
    Inv (fgWait s1 jid pid).1 := by
  subst hpid
  unfold fgWait
  rcases hex : extractFirstFg job1.pid s1.pending with ⟨r, rest⟩
  rcases r with - | ev
  · exact inv_congr rfl rfl rfl h
  · rcases ev with ⟨eid, epid, kind⟩
    cases kind with
    | exited c => exact inv_congr rfl rfl rfl (inv_modify_pop h hj (exitedFn c) none rest)
    | signaled g =>
      exact inv_congr rfl rfl rfl (inv_modify_pop h hj (setStatusFn (.Signaled g)) none rest)
    | stopped g =>
      exact inv_congr rfl rfl rfl
        (inv_modify_insert h hj (setStatusFn .Stopped) rfl rfl none rest)
    | continued => exact inv_congr rfl rfl rfl h

/-- The body of the `fg` builtin preserves the invariant. -/
theorem inv_fgWithJid {s : ShellState} (h : Inv s) (i : Int) : Inv (fgWithJid s i).1 := by
  unfold fgWithJid
  rcases hf : find_job_by_jid s i with - | job
  · exact h
  · have hj : dictLookup s.jobs i.toNat = some job := find_job_some hf
    exact inv_fgWait (inv_fgRun h hj job.pid) job.pid (lookup_fgRun hj job.pid) rfl

/-- The `fg` builtin preserves the invariant. -/
theorem inv_builtin_fg {s : ShellState} (h : Inv s) (args : List String) :
    Inv (builtin_fg s args).1 := by
  rcases args with - | ⟨a, rest⟩
  · have e1 : builtin_fg s [] = (match (s.jobs.map Prod.fst).getLast? with | none => (s, ["fg: no current job"]) | some j => fgWithJid s (j : Int)) := rfl
    rw [e1]
    rcases (s.jobs.map Prod.fst).getLast? with - | j
    · exact h
    · exact inv_fgWithJid h _
  · have e1 : builtin_fg s (a :: rest) = (match pyInt a with | none => (s, ["fg: bad job id"]) | some i => fgWithJid s i) := rfl
    rw [e1]
    rcases pyInt a with - | i
    · exact h
    · exact inv_fgWithJid h i

/-- The body of the `bg` builtin preserves the invariant. -/
theorem inv_bgWithJid {s : ShellState} (h : Inv s) (i : Int) (killOk : Bool) :
    Inv (bgWithJid s i killOk).1 := by
  unfold bgWithJid
  rcases hf : find_job_by_jid s i with - | job
  · exact h
  · have hj : dictLookup s.jobs i.toNat = some job := find_job_some hf
    cases killOk with
    | true =>
      exact inv_congr rfl rfl rfl
        (inv_modify_insert h hj (setStatusFn .Running) rfl rfl s.foreground_pid s.pending)
    | false => exact h

/-- The `bg` builtin preserves the invariant. -/
theorem inv_builtin_bg {s : ShellState} (h : Inv s) (args : List String) (killOk : Bool) :
    Inv (builtin_bg s args killOk).1 := by
  rcases args with - | ⟨a, rest⟩
  · have e1 : builtin_bg s [] killOk = (match (s.jobs.map Prod.fst).getLast? with | none => (s, ["bg: no current job"]) | some j => bgWithJid s (j : Int) killOk) := rfl
    rw [e1]
    rcases (s.jobs.map Prod.fst).getLast? with - | j
    · exact h
    · exact inv_bgWithJid h _ killOk
  · have e1 : builtin_bg s (a :: rest) killOk = (match pyInt a with | none => (s, ["bg: bad job id"]) | some i => bgWithJid s i killOk) := rfl
    rw [e1]
    rcases pyInt a with - | i
    · exact h
    · exact inv_bgWithJid h i killOk

/-- The `kill` builtin never mutates the shell state. -/
theorem builtin_kill_state (s : ShellState) (args : List String) :
    (builtin_kill s args).1 = s := rfl

/-- The pruner preserves the invariant. -/
theorem inv_prune_done_jobs {s : ShellState} (h : Inv s) (now : Nat) :
    Inv (prune_done_jobs s now) := by
  obtain ⟨h1, h2, h3, h4⟩ := h
  unfold prune_done_jobs
  refine ⟨?_, ?_, h3, ?_⟩
  · intro k hk
    exact h1 k ((keys_foldl_dictPop_sublist _ s.jobs).subset hk)
  · exact (keys_foldl_dictPop_sublist _ s.jobs).nodup h2
  · intro e he
    obtain ⟨job1, hjob1, hp1, hs1⟩ := h4 e he
    have hnotin : e.2 ∉ (s.jobs.filter fun q =>
        isTerminalB q.2.status && decide (DONE_ENTRY_TTL < now - q.2.start_time)).map
          Prod.fst := by
      intro hin
      obtain ⟨⟨k2, jb⟩, hmemf, hfst⟩ := List.mem_map.mp hin
      obtain ⟨hmem2, hcond⟩ := List.mem_filter.mp hmemf
      have hk2 : k2 = e.2 := hfst
      subst hk2
      have hlk : dictLookup s.jobs e.2 = some jb := dictLookup_of_mem h2 hmem2
      rw [hjob1] at hlk
      have hjb : job1 = jb := Option.some.inj hlk
      rw [← hjb] at hcond
      simp only [Bool.and_eq_true] at hcond
      rw [hs1] at hcond
      exact Bool.false_ne_true hcond.1
    refine ⟨job1, ?_, hp1, hs1⟩
    show dictLookup (List.foldl dictPop s.jobs _) e.2 = some job1
    rw [dictLookup_foldl_dictPop _ s.jobs e.2 hnotin]
    exact hjob1

/-- The foreground launch wait preserves the invariant for a fresh pid. -/
theorem inv_fgLaunchWait {s1 : ShellState} (h : Inv s1) {pid : Nat}
    (hfresh : dictLookup s1.pid_to_jid pid = none) (cmdline : String) (now : Nat) :
    Inv (fgLaunchWait s1 pid cmdline now).1 := by
  unfold fgLaunchWait
  rcases hex : extractFirstFg pid s1.pending with ⟨r, rest⟩
  rcases r with - | ev
  · exact inv_congr rfl rfl rfl h
  · rcases ev with ⟨eid, epid, kind⟩
    cases kind with
    | exited c => exact inv_congr rfl rfl rfl h
    | signaled g => exact inv_congr rfl rfl rfl h
    | continued => exact inv_congr rfl rfl rfl h
    | stopped g =>
      have hbase : Inv ({ s1 with pending := rest } : ShellState) := inv_congr rfl rfl rfl h
      have hres := inv_add_job hbase cmdline .Stopped rfl now hfresh
      exact inv_congr rfl rfl rfl hres

/-- The launcher preserves the invariant whenever the OS hands it a pid
that is not the pid of a live job. -/
theorem inv_launch_external {s : ShellState} (h : Inv s) (tokens : List String)
    (background : Bool) {spawn : SpawnResult} (now : Nat)
    (hfresh : ∀ pid, spawn = .ok pid → dictLookup s.pid_to_jid pid = none) :
    Inv (launch_external s tokens background spawn now).1 := by
  unfold launch_external
  cases spawn with
  | notFound => exact h
  | osError msg => exact h
  | ok pid =>
    have hf : dictLookup s.pid_to_jid pid = none := hfresh pid rfl
    cases background with
    | true => exact inv_congr rfl rfl rfl (inv_add_job h _ .Running rfl now hf)
    | false => exact inv_fgLaunchWait (inv_congr rfl rfl rfl h) hf _ now

/-- Every public operation preserves the invariant. -/
theorem inv_applyOp {s : ShellState} (h : Inv s) (op : OpInstr) (hok : OpOk s op) :
    Inv (applyOp s op) := by
  cases op with
  | pushEvent ev => exact inv_congr rfl rfl rfl h
  | reap => exact inv_sigchld_handler h
  | launch tokens background spawn now =>
    refine inv_launch_external h tokens background now ?_
    intro pid hsp
    subst hsp
    exact hok
  | fgOp args => exact inv_builtin_fg h args
  | bgOp args killOk => exact inv_builtin_bg h args killOk
  | killOp args => exact inv_congr rfl rfl rfl h
  | pruneOp now => exact inv_prune_done_jobs h now

/-- The invariant holds in the initial state. -/
theorem inv_initState : Inv initState := by
  refine ⟨?_, ?_, ?_, ?_⟩ <;> simp [initState, IndexForward]

/-- The invariant holds in every reachable state. -/
theorem reachable_inv {s : ShellState} (h : Reachable s) : Inv s := by
  induction h with
  | init => exact inv_initState
  | step op hr hok ih => exact inv_applyOp ih op hok

/-! ### Job-id accounting: every operation leaves the counter alone or
registers exactly the counter value and bumps it. -/

theorem update_job_status_next (s : ShellState) (pid : Nat) (st : JobStatus)
    (e : Option Nat) : (update_job_status s pid st e).next_job_id = s.next_job_id := by
  rcases hm : dictLookup s.pid_to_jid pid with - | jid
  · rw [update_job_status_none st e hm]
  · rcases hjj : dictLookup s.jobs jid with - | j
    · rw [update_job_status_nojob st e hm hjj]
    · rw [update_job_status_some st e hm hjj]

theorem mark_job_done_next (s : ShellState) (pid : Nat) (e : Option Nat) :
    (mark_job_done s pid e).next_job_id = s.next_job_id := by
  rcases hm : dictLookup s.pid_to_jid pid with - | jid
  · rw [mark_job_done_none e hm]
  · rcases hjj : dictLookup s.jobs jid with - | j
    · rw [mark_job_done_nojob e hm hjj]
    · rw [mark_job_done_some e hm hjj]

theorem handleEvent_next (s : ShellState) (ev : ChildEvent) :
    (handleEvent s ev).next_job_id = s.next_job_id := by
  unfold handleEvent
  rcases ev with ⟨eid, pid, kind⟩
  cases kind with
  | exited c => rw [mark_job_done_next, update_job_status_next]
  | signaled g => rw [mark_job_done_next, update_job_status_next]
  | stopped g => rw [update_job_status_next]
  | continued => rw [update_job_status_next]

theorem sigchld_handler_next (s : ShellState) :
    (sigchld_handler s).next_job_id = s.next_job_id := by
  show (s.pending.foldl handleEvent s).next_job_id = s.next_job_id
  have hfold : ∀ (l : List ChildEvent) (t : ShellState),
      (l.foldl handleEvent t).next_job_id = t.next_job_id := by
    intro l
    induction l with
    | nil => intro t; rfl
    | cons ev l2 ih => intro t; rw [List.foldl_cons, ih, handleEvent_next]
  exact hfold s.pending s

theorem fgWait_next (s1 : ShellState) (jid pid : Nat) :
    (fgWait s1 jid pid).1.next_job_id = s1.next_job_id := by
  unfold fgWait
  rcases extractFirstFg pid s1.pending with ⟨r, rest⟩
  rcases r with - | ev
  · rfl
  · rcases ev with ⟨eid, epid, kind⟩
    cases kind <;> rfl

theorem fgWithJid_next (s : ShellState) (i : Int) :
    (fgWithJid s i).1.next_job_id = s.next_job_id := by
  unfold fgWithJid
  rcases find_job_by_jid s i with - | job
  · rfl
  · rw [fgWait_next]; rfl

theorem builtin_fg_next (s : ShellState) (args : List String) :
    (builtin_fg s args).1.next_job_id = s.next_job_id := by
  rcases args with - | ⟨a, rest⟩
  · have e1 : builtin_fg s [] = (match (s.jobs.map Prod.fst).getLast? with | none => (s, ["fg: no current job"]) | some j => fgWithJid s (j : Int)) := rfl
    rw [e1]
    rcases (s.jobs.map Prod.fst).getLast? with - | j
    · rfl
    · rw [fgWithJid_next]
  · have e1 : builtin_fg s (a :: rest) = (match pyInt a with | none => (s, ["fg: bad job id"]) | some i => fgWithJid s i) := rfl
    rw [e1]
    rcases pyInt a with - | i
    · rfl
    · rw [fgWithJid_next]

theorem bgWithJid_next (s : ShellState) (i : Int) (killOk : Bool) :
    (bgWithJid s i killOk).1.next_job_id = s.next_job_id := by
  unfold bgWithJid
  rcases find_job_by_jid s i with - | job
  · rfl
  · cases killOk <;> rfl

theorem builtin_bg_next (s : ShellState) (args : List String) (killOk : Bool) :
    (builtin_bg s args killOk).1.next_job_id = s.next_job_id := by
  rcases args with - | ⟨a, rest⟩
  · have e1 : builtin_bg s [] killOk = (match (s.jobs.map Prod.fst).getLast? with | none => (s, ["bg: no current job"]) | some j => bgWithJid s (j : Int) killOk) := rfl
    rw [e1]
    rcases (s.jobs.map Prod.fst).getLast? with - | j
    · rfl
    · rw [bgWithJid_next]
  · have e1 : builtin_bg s (a :: rest) killOk = (match pyInt a with | none => (s, ["bg: bad job id"]) | some i => bgWithJid s i killOk) := rfl
    rw [e1]
    rcases pyInt a with - | i
    · rfl
    · rw [bgWithJid_next]

theorem range1_append (a n m : Nat) :
    List.range' a n ++ List.range' (a + n) m = List.range' a (n + m) := by
  have h := List.range'_append a n m 1
  simp only [one_mul] at h
  rw [h, Nat.add_comm m n]

theorem fgLaunchWait_ids (s1 : ShellState) (pid : Nat) (cmdline : String) (now : Nat) :
    (fgLaunchWait s1 pid cmdline now).2.2 =
      List.range' s1.next_job_id (fgLaunchWait s1 pid cmdline now).2.2.length ∧
    (fgLaunchWait s1 pid cmdline now).1.next_job_id =
      s1.next_job_id + (fgLaunchWait s1 pid cmdline now).2.2.length := by
  unfold fgLaunchWait
  rcases extractFirstFg pid s1.pending with ⟨r, rest⟩
  rcases r with - | ev
  · exact ⟨rfl, rfl⟩
  · rcases ev with ⟨eid, epid, kind⟩
    cases kind with
    | exited c => exact ⟨rfl, rfl⟩
    | signaled g => exact ⟨rfl, rfl⟩
    | continued => exact ⟨rfl, rfl⟩
    | stopped g =>
      constructor
      · show [s1.next_job_id] = List.range' s1.next_job_id 1
        simp [List.range']
      · rfl

/-- Per-operation id accounting: the ids registered by one operation are
exactly the consecutive counter values starting at the current counter,
which advances by their number. -/
theorem applyOpA_ids (s : ShellState) (op : OpInstr) :
    (applyOpA s op).2 = List.range' s.next_job_id (applyOpA s op).2.length ∧
    (applyOpA s op).1.next_job_id = s.next_job_id + (applyOpA s op).2.length := by
  cases op with
  | pushEvent ev => exact ⟨rfl, rfl⟩
  | reap =>
    refine ⟨rfl, ?_⟩
    show (sigchld_handler s).next_job_id = s.next_job_id + 0
    rw [sigchld_handler_next, Nat.add_zero]
  | launch tokens background spawn now =>
    show (launch_external s tokens background spawn now).2.2 = _ ∧
      (launch_external s tokens background spawn now).1.next_job_id = _
    unfold launch_external
    cases spawn with
    | notFound => exact ⟨rfl, rfl⟩
    | osError m => exact ⟨rfl, rfl⟩
    | ok pid =>
      cases background with
      | true =>
        constructor
        · show [s.next_job_id] = List.range' s.next_job_id 1
          simp [List.range']
        · rfl
      | false => exact fgLaunchWait_ids _ pid _ now
  | fgOp args =>
    refine ⟨rfl, ?_⟩
    show (builtin_fg s args).1.next_job_id = s.next_job_id + 0
    rw [builtin_fg_next, Nat.add_zero]
  | bgOp args killOk =>
    refine ⟨rfl, ?_⟩
    show (builtin_bg s args killOk).1.next_job_id = s.next_job_id + 0
    rw [builtin_bg_next, Nat.add_zero]
  | killOp args => exact ⟨rfl, rfl⟩
  | pruneOp now => exact ⟨rfl, rfl⟩

/-- Trace-level id accounting. -/
theorem runTraceA_ids (ops : List OpInstr) : ∀ s : ShellState,
    (runTraceA s ops).2 = List.range' s.next_job_id (runTraceA s ops).2.length ∧
    (runTraceA s ops).1.next_job_id = s.next_job_id + (runTraceA s ops).2.length := by
  induction ops with
  | nil => intro s; exact ⟨rfl, rfl⟩
  | cons op ops ih =>
    intro s
    obtain ⟨hop1, hop2⟩ := applyOpA_ids s op
    obtain ⟨ht1, ht2⟩ := ih (applyOpA s op).1
    have hsplit : runTraceA s (op :: ops) =
        ((runTraceA (applyOpA s op).1 ops).1,
         (applyOpA s op).2 ++ (runTraceA (applyOpA s op).1 ops).2) := rfl
    rw [hsplit]
    simp only [List.length_append]
    constructor
    · rw [hop1, ht1]
      show List.range' s.next_job_id (applyOpA s op).2.length ++
        List.range' (applyOpA s op).1.next_job_id (runTraceA (applyOpA s op).1 ops).2.length = _
      rw [hop2, range1_append, hop1, ht1]
      simp
    · rw [ht2, hop2, Nat.add_assoc]

/-! ### Single consumption of child status events

Both status collectors of the shell go through `waitpid`, which removes
the reported event from the kernel queue: the reaper's WNOHANG drain
takes everything pending, and the blocking foreground wait takes the
first reportable event of its pid (`extractFirstFg`, exactly the
primitive used by `fgWait` and `fgLaunchWait`).  An interleaving of
these clients can therefore never deliver one event twice. -/

/-- One atomic `waitpid` client: a full reaper drain, or one blocking
foreground wait for a specific pid. -/
inductive WaitAction where
  | reapAll
  | fgWaitFor (pid : Nat)

/-- Events consumed, and events left queued, by one wait client. -/
def consumeStep (pend : List ChildEvent) : WaitAction → List ChildEvent × List ChildEvent
  | .reapAll => (pend, [])
  | .fgWaitFor pid =>
    match extractFirstFg pid pend with
    | (some ev, rest) => ([ev], rest)
    | (none, rest) => ([], rest)

/-- All events consumed over an interleaving of wait clients. -/
def consumeTrace : List ChildEvent → List WaitAction → List ChildEvent
  | _, [] => []
  | pend, a :: acts =>
    (consumeStep pend a).1 ++ consumeTrace (consumeStep pend a).2 acts

theorem extractFirstFg_some_perm {pid : Nat} : ∀ {l : List ChildEvent} {ev : ChildEvent}
    {rest : List ChildEvent}, extractFirstFg pid l = (some ev, rest) → l.Perm (ev :: rest) := by
  intro l
  induction l with
  | nil => intro ev rest h; simp [extractFirstFg] at h
  | cons e t ih =>
    intro ev rest h
    rcases hx : extractFirstFg pid t with ⟨r1, r2⟩
    by_cases hm : fgWaitMatches pid e
    · rw [show extractFirstFg pid (e :: t) = (some e, t) by simp [extractFirstFg, hm]] at h
      obtain ⟨h1, h2⟩ := Prod.mk.injEq .. ▸ h
      cases Option.some.inj h1
      cases h2
      exact List.Perm.refl _
    · rw [show extractFirstFg pid (e :: t) = (r1, e :: r2) by
        simp [extractFirstFg, hm, hx]] at h
      obtain ⟨h1, h2⟩ := Prod.mk.injEq .. ▸ h
      subst h1
      cases h2
      exact ((ih hx).cons e).trans (List.Perm.swap ev e r2)

theorem extractFirstFg_none_eq {pid : Nat} : ∀ {l rest : List ChildEvent},
    extractFirstFg pid l = (none, rest) → rest = l := by
  intro l
  induction l with
  | nil => intro rest h; simp [extractFirstFg] at h; exact h
  | cons e t ih =>
    intro rest h
    rcases hx : extractFirstFg pid t with ⟨r1, r2⟩
    by_cases hm : fgWaitMatches pid e
    · rw [show extractFirstFg pid (e :: t) = (some e, t) by simp [extractFirstFg, hm]] at h
      obtain ⟨h1, -⟩ := Prod.mk.injEq .. ▸ h
      cases h1
    · rw [show extractFirstFg pid (e :: t) = (r1, e :: r2) by
        simp [extractFirstFg, hm, hx]] at h
      obtain ⟨h1, h2⟩ := Prod.mk.injEq .. ▸ h
      subst h1
      rw [← h2, ih hx]

theorem consumeStep_perm (pend : List ChildEvent) (a : WaitAction) :
    ((consumeStep pend a).1 ++ (consumeStep pend a).2).Perm pend := by
  cases a with
  | reapAll => simp [consumeStep]
  | fgWaitFor pid =>
    rcases hx : extractFirstFg pid pend with ⟨r, rest⟩
    rcases r with - | ev
    · rw [show consumeStep pend (.fgWaitFor pid) = ([], rest) by simp [consumeStep, hx]]
      rw [extractFirstFg_none_eq hx]
      simp
    · rw [show consumeStep pend (.fgWaitFor pid) = ([ev], rest) by simp [consumeStep, hx]]
      exact (extractFirstFg_some_perm hx).symm

theorem consumeTrace_perm : ∀ (acts : List WaitAction) (pend : List ChildEvent),
    ∃ left, (consumeTrace pend acts ++ left).Perm pend := by
  intro acts
  induction acts with
  | nil => intro pend; exact ⟨pend, by simp [consumeTrace]⟩
  | cons a acts ih =>
    intro pend
    obtain ⟨left, hperm⟩ := ih (consumeStep pend a).2
    refine ⟨left, ?_⟩
    have h1 : consumeTrace pend (a :: acts) ++ left
        = (consumeStep pend a).1 ++ (consumeTrace (consumeStep pend a).2 acts ++ left) := by
      simp [consumeTrace]
    rw [h1]
    exact (List.Perm.append_left _ hperm).trans (consumeStep_perm pend a)

/-! ### Pruner lemmas shared by several claims -/

/-- Status of the record with id `jid`, as the listing observes it. -/
def statusOfJid (s : ShellState) (jid : Nat) : Option JobStatus :=
  (dictLookup s.jobs jid).map Job.status

/-- A non-terminal record survives any pruner run. -/
theorem prune_keeps_nonterminal {s : ShellState} (hnd : (s.jobs.map Prod.fst).Nodup)
    {jid : Nat} {job : Job} (hj : dictLookup s.jobs jid = some job)
    (hst : isTerminalB job.status = false) (now : Nat) :
    dictLookup (prune_done_jobs s now).jobs jid = some job := by
  unfold prune_done_jobs
  show dictLookup (List.foldl dictPop s.jobs _) jid = some job
  rw [dictLookup_foldl_dictPop _ _ jid ?hnin]
  · exact hj
  case hnin =>
    intro hin
    obtain ⟨⟨k2, jb⟩, hmemf, hfst⟩ := List.mem_map.mp hin
    obtain ⟨hmem2, hcond⟩ := List.mem_filter.mp hmemf
    have hk2 : k2 = jid := hfst
    subst hk2
    have hlk := dictLookup_of_mem hnd hmem2
    rw [hj] at hlk
    have hjb : job = jb := Option.some.inj hlk
    simp only [Bool.and_eq_true] at hcond
    rw [← hjb, hst] at hcond
    exact Bool.false_ne_true hcond.1

/-- A terminal record strictly older than the window is removed by the
pruner. -/
theorem prune_removes_old_terminal {s : ShellState} (hnd : (s.jobs.map Prod.fst).Nodup)
    {jid : Nat} {job : Job} (hj : dictLookup s.jobs jid = some job)
    (hst : isTerminalB job.status = true) (now : Nat)
    (hage : DONE_ENTRY_TTL < now - job.start_time) :
    dictLookup (prune_done_jobs s now).jobs jid = none := by
  unfold prune_done_jobs
  show dictLookup (List.foldl dictPop s.jobs _) jid = none
  rw [dictLookup_eq_none_iff]
  intro hmemk
  obtain ⟨ep, hmem, hfst⟩ := List.mem_map.mp hmemk
  have hmem2 := (mem_foldl_dictPop _ _ hnd ep).mp hmem
  apply hmem2.2
  rw [hfst]
  refine List.mem_map.mpr ⟨(jid, job), List.mem_filter.mpr ⟨?_, ?_⟩, rfl⟩
  · have := mem_of_dictLookup hj
    exact this
  · simp only [Bool.and_eq_true, decide_eq_true_eq]
    exact ⟨hst, hage⟩

/-! ## The claims -/

/-- The "iff" form of the pid-index invariant as the spec states it: a
job's pid resolves through the index to that job exactly when the job
is still non-terminal. -/
def pidIndexIffB (s : ShellState) : Bool :=
  s.jobs.all fun p =>
    ((dictLookup s.pid_to_jid p.2.pid == some p.1)) == !isTerminalB p.2.status

/-- A reachable state refuting the iff: background-launch job 1
(pid 100), let it exit and be reaped, then run `fg 1` on the dead job. -/
def c1CexState : ShellState :=
  applyOp (applyOp (applyOp (applyOp initState
    (.launch ["sleep", "100"] true (.ok 100) 5))
    (.pushEvent ⟨0, 100, .exited 0⟩)) .reap) (.fgOp ["1"])

/-- C1: refuted as stated.  `fg` applied to an already-reaped (terminal)
record sets it back to `Running` without restoring its pid-index entry,
so a reachable state holds a non-terminal job whose pid is absent from
the index: the "entry iff non-terminal" equivalence fails in the
index-restoring direction. -/
theorem C1_pid_index_iff_counterexample :
    Reachable c1CexState ∧ pidIndexIffB c1CexState = false :=
  ⟨Reachable.step _ (Reachable.step _ (Reachable.step _ (Reachable.step _
      Reachable.init rfl) trivial) trivial) trivial,
   by decide⟩

/-- C1 (amended): at every state reachable by the public operations
(launch, reap, fg, bg, kill, prune), every pid-index entry resolves to
a registered record carrying that pid whose status is non-terminal
(`Running` or `Stopped`); in particular a job that reaches
`Exited`/`Signaled`/`Done` is never indexed, even while its record
persists until pruned.  Only the converse direction of the spec's
"iff" fails, exactly as the counterexample shows: a foreground revival
of a terminal record yields a `Running` job with no index entry. -/
theorem C1_pid_index_forward_invariant {s : ShellState} (h : Reachable s) :
    IndexForward s :=
  (reachable_inv h).2.2.2

theorem C1_pid_index_forward_invariant_witness :
    IndexForward (applyOp initState (.launch ["sleep", "100"] true (.ok 100) 5)) :=
  C1_pid_index_forward_invariant (Reachable.step _ Reachable.init rfl)

/-- Background job [1] (pid 100) running; its child is terminated by
signal 15 and the SIGCHLD reaper drains the event. -/
def c2State : ShellState :=
  applyOp (applyOp (applyOp initState
    (.launch ["sleep", "100"] true (.ok 100) 5))
    (.pushEvent ⟨0, 100, .signaled 15⟩)) .reap

/-- C2: the reaper's signal path writes `Signaled(15)` via
`update_job_status` but immediately calls `mark_job_done(pid, None)`,
which overwrites the status with the bare `Done` marker (despite its
own comment "leave to other handlers") before retiring the pid index
entry.  The status observable through the listing is therefore `Done`,
not `Signaled(15)` as the claim states. -/
theorem C2_signaled_child_listed_as_done :
    statusOfJid c2State 1 = some .Done ∧
    (JobStatus.Done ≠ .Signaled 15) ∧
    dictLookup c2State.pid_to_jid 100 = none ∧
    (builtin_jobs c2State 5).2 = ["[1] 100 Done\tsleep 100 (age 0s)"] :=
  ⟨rfl, by decide, rfl, rfl⟩

/-- C3: over any interleaving of the two status collectors — reaper
drains (`WNOHANG` loop over all children) and blocking foreground waits
for specific pids — every queued child state-change event, identified
by its `eid`, is consumed at most once: the concatenated consumption
trace contains no duplicate.  Both collectors go through the modelled
`waitpid` (`consumeStep`, built on the same `extractFirstFg` primitive
used by `fgWait`/`fgLaunchWait`), which removes what it reports. -/
theorem C3_single_consumption (pend : List ChildEvent) (acts : List WaitAction)
    (h : (pend.map ChildEvent.eid).Nodup) :
    ((consumeTrace pend acts).map ChildEvent.eid).Nodup := by
  obtain ⟨left, hperm⟩ := consumeTrace_perm acts pend
  have hmap : ((consumeTrace pend acts ++ left).map ChildEvent.eid).Perm
      (pend.map ChildEvent.eid) := hperm.map _
  have hnd : ((consumeTrace pend acts ++ left).map ChildEvent.eid).Nodup :=
    hmap.nodup_iff.mpr h
  rw [List.map_append] at hnd
  exact hnd.of_append_left

theorem C3_single_consumption_witness :
    (([⟨0, 100, .exited 0⟩, ⟨1, 101, .signaled 9⟩, ⟨2, 100, .stopped 19⟩]
        : List ChildEvent).map ChildEvent.eid).Nodup ∧
    ((consumeTrace [⟨0, 100, .exited 0⟩, ⟨1, 101, .signaled 9⟩, ⟨2, 100, .stopped 19⟩]
        [.fgWaitFor 100, .reapAll, .fgWaitFor 101]).map ChildEvent.eid).Nodup :=
  ⟨by decide, C3_single_consumption _ _ (by decide)⟩

/-- C4: the listed error classes are caught where they arise (a
tokenization error, for instance, is reported as one line and the loop
goes on to the next input), but the claim that *no* dispatch error ever
terminates the interactive loop fails on the input line `&`: stripping
the background marker empties the token list and `cmd = tokens[0]`
raises an `IndexError` that no handler inside `parse_and_execute`
catches; it escapes to the handler *outside* the `while` loop in
`main`, which prints one `Shell error:` line and ends the shell,
discarding all remaining input. -/
theorem C4_bare_ampersand_kills_loop :
    (∀ (s : ShellState) (now : Nat) (spawn : SpawnResult) (killOk : Bool) (msg : String),
      parse_and_execute s (.parseError msg) now spawn killOk
        = .ok s ["Parsing error: " ++ msg]) ∧
    (∀ (s : ShellState) (now : Nat) (spawn : SpawnResult) (killOk : Bool)
        (rest : List LoopInput) (msg : String),
      main_loop s (⟨.parseError msg, now, spawn, killOk⟩ :: rest)
        = ((main_loop (prune_done_jobs s now) rest).1,
           ("Parsing error: " ++ msg) :: (main_loop (prune_done_jobs s now) rest).2)) ∧
    (∀ (s : ShellState) (now : Nat) (spawn : SpawnResult) (killOk : Bool),
      parse_and_execute s (.toks ["&"]) now spawn killOk = .crash s) ∧
    (∀ (s : ShellState) (now : Nat) (spawn : SpawnResult) (killOk : Bool)
        (rest : List LoopInput),
      main_loop s (⟨.toks ["&"], now, spawn, killOk⟩ :: rest)
        = (s, ["Shell error: list index out of range"])) :=
  ⟨fun _ _ _ _ _ => rfl, fun _ _ _ _ _ _ => rfl, fun _ _ _ _ => rfl, fun _ _ _ _ _ => rfl⟩

/-- C5: over every trace of public operations from the fresh shell, the
job ids handed out by the successful registrations (background launches
and lazy registrations of stopped foreground jobs) are exactly the
consecutive values `1, 2, 3, …` in order: they start at 1, strictly
increase with every registration, and are never reused — pruning
included, since no operation ever lowers the `next_job_id` counter. -/
theorem C5_job_ids_consecutive_from_one (ops : List OpInstr) :
    (runTraceA initState ops).2
      = List.range' 1 (runTraceA initState ops).2.length :=
  (runTraceA_ids ops initState).1

/-- C6: a record survives the pruner run at time `now` exactly when it
is non-terminal or its age does not exceed the 60-unit window: no
`Running`/`Stopped` record is ever removed regardless of age, every
terminal record older than the window is removed, and every terminal
record at most 60 old is kept. -/
theorem C6_prune_membership (s : ShellState) (now : Nat)
    (hnd : (s.jobs.map Prod.fst).Nodup) (jid : Nat) (job : Job) :
    (jid, job) ∈ (prune_done_jobs s now).jobs ↔
      ((jid, job) ∈ s.jobs ∧
        (isTerminalB job.status = true → now - job.start_time ≤ DONE_ENTRY_TTL)) := by
  unfold prune_done_jobs
  show (jid, job) ∈ List.foldl dictPop s.jobs _ ↔ _
  rw [mem_foldl_dictPop _ _ hnd]
  constructor
  · rintro ⟨hmem, hnin⟩
    refine ⟨hmem, fun hterm => ?_⟩
    by_contra hgt
    push_neg at hgt
    refine hnin (List.mem_map.mpr ⟨(jid, job), List.mem_filter.mpr ⟨hmem, ?_⟩, rfl⟩)
    simp only [Bool.and_eq_true, decide_eq_true_eq]
    exact ⟨hterm, hgt⟩
  · rintro ⟨hmem, himp⟩
    refine ⟨hmem, fun hin => ?_⟩
    obtain ⟨⟨k2, jb⟩, hmemf, hfst⟩ := List.mem_map.mp hin
    obtain ⟨hmem2, hcond⟩ := List.mem_filter.mp hmemf
    have hk2 : k2 = jid := hfst
    subst hk2
    have hjb : jb = job := value_eq_of_mem hnd hmem2 hmem
    subst hjb
    simp only [Bool.and_eq_true, decide_eq_true_eq] at hcond
    exact absurd (himp hcond.1) (Nat.not_le.mpr hcond.2)

/-- An old terminal record for exercising the pruner. -/
def c6Job1 : Job :=
  { pid := 100, cmdline := "sleep 1", status := .Exited 0, start_time := 0, exitcode := some 0 }

/-- A two-record registry: job 1 terminal and old, job 2 running and
equally old. -/
def c6State : ShellState :=
  { jobs := [(1, c6Job1),
             (2, { pid := 101, cmdline := "sleep 999", status := .Running,
                   start_time := 0, exitcode := none })],
    next_job_id := 3, pid_to_jid := [(101, 2)], foreground_pid := none, pending := [] }

theorem C6_prune_membership_witness :
    ((c6State.jobs.map Prod.fst).Nodup) ∧
    (((1, c6Job1) ∈ (prune_done_jobs c6State 100).jobs) ↔
      ((1, c6Job1) ∈ c6State.jobs ∧
        (isTerminalB c6Job1.status = true → 100 - c6Job1.start_time ≤ DONE_ENTRY_TTL))) :=
  ⟨by decide, C6_prune_membership c6State 100 (by decide) 1 c6Job1⟩

/-- C7: refuted as stated for bare pids.  `kill 123` dispatches
`os.kill(123, SIGTERM)` — a signal to the single process 123, not to
its process group; only the `%N` form resolves a job and uses
`os.killpg`. -/
theorem C7_bare_pid_counterexample :
    (builtin_kill initState ["123"]).2.2 = [SigAction.single 123] ∧
    (∀ p : Nat, SigAction.single 123 ≠ SigAction.group p) :=
  ⟨rfl, fun _ h => SigAction.noConfusion h⟩

/-- C7 (amended): a `%N` token resolves through the job table and
directs the terminate signal at the job's process group; a bare integer
token signals that single process (not its group); an unknown `%N`
reports "no such job"; an unparseable token reports an invalid-token
line and is skipped.  In every case the registry is untouched. -/
theorem C7_kill_token_behavior (s : ShellState) (token : String) :
    ((builtin_kill s [token]).1 = s) ∧
    (∀ (i : Int) (job : Job), startsPercent token = true → pyInt (strTail token) = some i →
      find_job_by_jid s i = some job →
      killToken s token = ([], [SigAction.group job.pid])) ∧
    (∀ i : Int, startsPercent token = true → pyInt (strTail token) = some i →
      find_job_by_jid s i = none →
      killToken s token = (["kill: % " ++ toString i ++ ": no such job"], [])) ∧
    (startsPercent token = true → pyInt (strTail token) = none →
      killToken s token = (["kill: invalid pid/job: " ++ token], [])) ∧
    (∀ i : Int, startsPercent token = false → pyInt token = some i →
      killToken s token = ([], [SigAction.single i])) ∧
    (startsPercent token = false → pyInt token = none →
      killToken s token = (["kill: invalid pid/job: " ++ token], [])) := by
  refine ⟨rfl, ?_, ?_, ?_, ?_, ?_⟩
  · intro i job hpc hpi hfind
    unfold killToken
    rw [if_pos hpc]
    simp only [hpi, hfind]
  · intro i hpc hpi hfind
    unfold killToken
    rw [if_pos hpc]
    simp only [hpi, hfind]
  · intro hpc hpi
    unfold killToken
    rw [if_pos hpc]
    simp only [hpi]
  · intro i hpc hpi
    unfold killToken
    rw [if_neg (by rw [hpc]; exact Bool.false_ne_true)]
    simp only [hpi]
  · intro hpc hpi
    unfold killToken
    rw [if_neg (by rw [hpc]; exact Bool.false_ne_true)]
    simp only [hpi]

/-- One running job [1] (pid 100) for exercising `kill %1`. -/
def c7State : ShellState :=
  { jobs := [(1, { pid := 100, cmdline := "sleep 100", status := .Running,
                   start_time := 0, exitcode := none })],
    next_job_id := 2, pid_to_jid := [(100, 1)], foreground_pid := none, pending := [] }

theorem C7_kill_token_behavior_witness :
    ((builtin_kill c7State ["%1"]).1 = c7State) ∧
    killToken c7State "%1" = ([], [SigAction.group 100]) ∧
    killToken c7State "%9" = (["kill: % 9: no such job"], []) ∧
    killToken c7State "%x" = (["kill: invalid pid/job: %x"], []) :=
  ⟨(C7_kill_token_behavior c7State "%1").1,
   (C7_kill_token_behavior c7State "%1").2.1 1
     { pid := 100, cmdline := "sleep 100", status := .Running,
       start_time := 0, exitcode := none } (by decide) (by decide) (by decide),
   (C7_kill_token_behavior c7State "%9").2.2.1 9 (by decide) (by decide) (by decide),
   (C7_kill_token_behavior c7State "%x").2.2.2.1 (by decide) (by decide)⟩

/-- C8: a spawn failure — the executable is missing or the OS rejects
the creation — leaves the entire state untouched (registry contents and
the id counter alike), registers nothing, and reports exactly one line
naming the offending argument `tokens[0]`. -/
theorem C8_launch_failure_no_state_change (s : ShellState) (tokens : List String)
    (background : Bool) (now : Nat) (msg : String) (h : tokens ≠ []) :
    ((launch_external s tokens background .notFound now).1 = s ∧
      (launch_external s tokens background .notFound now).2.1
        = [tokens.head h ++ ": command not found"] ∧
      (launch_external s tokens background .notFound now).2.2 = []) ∧
    ((launch_external s tokens background (.osError msg) now).1 = s ∧
      (launch_external s tokens background (.osError msg) now).2.1
        = ["Error launching " ++ tokens.head h ++ ": " ++ msg] ∧
      (launch_external s tokens background (.osError msg) now).2.2 = []) := by
  have hh : tokens.headD "" = tokens.head h := by
    cases tokens with
    | nil => exact absurd rfl h
    | cons a t => rfl
  unfold launch_external
  rw [hh]
  exact ⟨⟨rfl, rfl, rfl⟩, ⟨rfl, rfl, rfl⟩⟩

theorem C8_launch_failure_no_state_change_witness :
    (launch_external initState ["nosuchcmd", "arg"] true .notFound 7).1 = initState ∧
    (launch_external initState ["nosuchcmd", "arg"] true .notFound 7).2.1
      = ["nosuchcmd: command not found"] :=
  ⟨((C8_launch_failure_no_state_change initState ["nosuchcmd", "arg"] true 7 "e"
      (by decide)).1).1,
   ((C8_launch_failure_no_state_change initState ["nosuchcmd", "arg"] true 7 "e"
      (by decide)).1).2.1⟩

/-- A registry holding one terminal, already-reaped record [1]
(pid 100, `Exited 0`, no index entry, no process left). -/
def c9State : ShellState :=
  { jobs := [(1, { pid := 100, cmdline := "sleep 100", status := .Exited 0,
                   start_time := 5, exitcode := some 0 })],
    next_job_id := 2, pid_to_jid := [], foreground_pid := none, pending := [] }

/-- C9: refuted as stated for `bg`.  With job 1 terminal and its process
gone, `bg 1` is not rejected as unknown, but
`os.killpg(os.getpgid(pid), SIGCONT)` raises `ProcessLookupError`
before any mutation, so the record is *not* set back to `Running` and
the pid index is *not* repopulated: the state is unchanged and an error
line is printed instead. -/
theorem C9_bg_dead_process_counterexample :
    (builtin_bg c9State ["1"] false).1 = c9State ∧
    (builtin_bg c9State ["1"] false).2 = ["bg: " ++ osErrorText] ∧
    statusOfJid c9State 1 = some (.Exited 0) ∧
    (JobStatus.Exited 0 ≠ .Running) :=
  ⟨rfl, rfl, rfl, by decide⟩

/-- C9 (amended): a terminal record still in the registry is accepted by
both resume operations — neither reports "not found".  `fg` on it sets
the status back to `Running` unconditionally, *without* restoring the
pid-index entry (its blocking wait then fails silently on the dead
child), and the revived non-terminal record is never removed by any
later pruner run; `bg` on it attempts the continue signal first, so
when the dead process makes that signal fail, it reports one error line
and leaves the record untouched — only if the signal delivery succeeds
(e.g. the pid was recycled) does `bg` set `Running` and reinsert the
pid-index entry. -/
theorem C9_terminal_record_revival (s : ShellState) (jid : Nat) (job : Job) (t : String)
    (hparse : pyInt t = some (jid : Int))
    (hfind : find_job_by_jid s (jid : Int) = some job)
    (_hterm : isTerminalB job.status = true)
    (hdead : (extractFirstFg job.pid s.pending).1 = none)
    (hnd : (s.jobs.map Prod.fst).Nodup) :
    (statusOfJid (builtin_fg s [t]).1 jid = some .Running) ∧
    ((builtin_fg s [t]).2 = []) ∧
    ((builtin_fg s [t]).1.pid_to_jid = s.pid_to_jid) ∧
    (∀ now, statusOfJid (prune_done_jobs (builtin_fg s [t]).1 now) jid = some .Running) ∧
    ((builtin_bg s [t] false).1 = s ∧ (builtin_bg s [t] false).2 = ["bg: " ++ osErrorText]) ∧
    (statusOfJid (builtin_bg s [t] true).1 jid = some .Running ∧
      dictLookup (builtin_bg s [t] true).1.pid_to_jid job.pid = some jid) := by
  have htn : ((jid : Int)).toNat = jid := Int.toNat_natCast jid
  have hj : dictLookup s.jobs jid = some job := by
    have hq := find_job_some hfind
    rwa [htn] at hq
  have hfg : builtin_fg s [t] = ({ s with jobs := dictModify s.jobs jid (setStatusFn .Running), foreground_pid := none }, []) := by
    have e1 : builtin_fg s [t] = (match pyInt t with | none => (s, ["fg: bad job id"]) | some i => fgWithJid s i) := rfl
    rw [e1]
    simp only [hparse]
    unfold fgWithJid
    simp only [hfind, htn]
    unfold fgWait
    rcases hx : extractFirstFg job.pid (fgRun s jid job.pid).pending with ⟨r, rest⟩
    have hr : r = none := by
      have h0 : (extractFirstFg job.pid (fgRun s jid job.pid).pending).1 = none := hdead
      rw [hx] at h0
      exact h0
    subst hr
    have hrest : rest = s.pending := by
      have h1 : extractFirstFg job.pid s.pending = (none, rest) := hx
      exact extractFirstFg_none_eq h1
    subst hrest
    rfl
  have hbgf : builtin_bg s [t] false = (s, ["bg: " ++ osErrorText]) := by
    have e2 : builtin_bg s [t] false = (match pyInt t with | none => (s, ["bg: bad job id"]) | some i => bgWithJid s i false) := rfl
    rw [e2]
    simp only [hparse]
    unfold bgWithJid
    simp only [hfind]
    rfl
  have hbgt : builtin_bg s [t] true = ({ s with jobs := dictModify s.jobs jid (setStatusFn .Running), pid_to_jid := assocInsert s.pid_to_jid job.pid jid }, ["[" ++ toString jid ++ "] " ++ toString job.pid ++ " continued in background"]) := by
    have e2 : builtin_bg s [t] true = (match pyInt t with | none => (s, ["bg: bad job id"]) | some i => bgWithJid s i true) := rfl
    rw [e2]
    simp only [hparse]
    unfold bgWithJid
    simp only [hfind, htn]
    rfl
  refine ⟨?_, ?_, ?_, ?_, ⟨?_, ?_⟩, ⟨?_, ?_⟩⟩
  · rw [hfg]
    unfold statusOfJid
    show (dictLookup (dictModify s.jobs jid (setStatusFn .Running)) jid).map Job.status = _
    rw [dictLookup_dictModify_self, hj]
    rfl
  · rw [hfg]
  · rw [hfg]
  · intro now
    rw [hfg]
    have hj2 : dictLookup ({ s with jobs := dictModify s.jobs jid (setStatusFn .Running), foreground_pid := none } : ShellState).jobs jid = some (setStatusFn .Running job) := by
      show dictLookup (dictModify s.jobs jid (setStatusFn .Running)) jid = _
      rw [dictLookup_dictModify_self, hj]
      rfl
    have hnd2 : ((({ s with jobs := dictModify s.jobs jid (setStatusFn .Running), foreground_pid := none } : ShellState)).jobs.map Prod.fst).Nodup := by
      show ((dictModify s.jobs jid (setStatusFn .Running)).map Prod.fst).Nodup
      rw [keys_dictModify]
      exact hnd
    unfold statusOfJid
    rw [prune_keeps_nonterminal hnd2 hj2 rfl now]
    rfl
  · rw [hbgf]
  · rw [hbgf]
  · rw [hbgt]
    unfold statusOfJid
    show (dictLookup (dictModify s.jobs jid (setStatusFn .Running)) jid).map Job.status = _
    rw [dictLookup_dictModify_self, hj]
    rfl
  · rw [hbgt]
    show dictLookup (assocInsert s.pid_to_jid job.pid jid) job.pid = some jid
    rw [dictLookup_assocInsert_self]

theorem C9_terminal_record_revival_witness :
    (statusOfJid (builtin_fg c9State ["1"]).1 1 = some .Running) ∧
    ((builtin_fg c9State ["1"]).1.pid_to_jid = c9State.pid_to_jid) ∧
    ((builtin_bg c9State ["1"] false).1 = c9State) ∧
    (statusOfJid (builtin_bg c9State ["1"] true).1 1 = some .Running) := by
  have h := C9_terminal_record_revival c9State 1
    { pid := 100, cmdline := "sleep 100", status := .Exited 0,
      start_time := 5, exitcode := some 0 } "1"
    (by decide) (by decide) (by decide) (by decide) (by decide)
  exact ⟨h.1, h.2.2.1, h.2.2.2.2.1.1, h.2.2.2.2.2.1⟩

/-- C10: the pruner measures a record's age from its creation timestamp
`start_time`, which no status transition ever touches: when the reaper
marks as exited a job whose creation already lies more than the
retention window in the past, the very next pruner run at that same
instant removes the record — the period a finished job stays listable
after termination can be zero. -/
theorem C10_prune_age_from_creation (s : ShellState) (pid jid code now e : Nat) (job : Job)
    (hnd : (s.jobs.map Prod.fst).Nodup)
    (hidx : dictLookup s.pid_to_jid pid = some jid)
    (hjob : dictLookup s.jobs jid = some job)
    (hage : DONE_ENTRY_TTL < now - job.start_time) :
    (∃ job2, dictLookup (handleEvent s ⟨e, pid, .exited code⟩).jobs jid = some job2 ∧
      job2.start_time = job.start_time ∧ job2.status = .Exited code) ∧
    dictLookup (prune_done_jobs (handleEvent s ⟨e, pid, .exited code⟩) now).jobs jid
      = none := by
  have hstep : handleEvent s ⟨e, pid, .exited code⟩ =
      mark_job_done (update_job_status s pid (.Exited code) (some code)) pid (some code) := rfl
  have hupd := update_job_status_some (.Exited code) (some code) hidx hjob
  have hm1 : dictLookup ({ s with jobs := dictModify s.jobs jid (updStatusFn (.Exited code) (some code)) } : ShellState).pid_to_jid pid = some jid := hidx
  have hjj1 : dictLookup ({ s with jobs := dictModify s.jobs jid (updStatusFn (.Exited code) (some code)) } : ShellState).jobs jid = some (updStatusFn (.Exited code) (some code) job) := by
    show dictLookup (dictModify s.jobs jid (updStatusFn (.Exited code) (some code))) jid = _
    rw [dictLookup_dictModify_self, hjob]
    rfl
  have hdone := mark_job_done_some (some code) hm1 hjj1
  have hfinal : handleEvent s ⟨e, pid, .exited code⟩ = { s with
      jobs := dictModify (dictModify s.jobs jid (updStatusFn (.Exited code) (some code))) jid (doneFn (some code)),
      pid_to_jid := dictPop s.pid_to_jid pid } := by
    rw [hstep, hupd, hdone]
  have hlook : dictLookup (handleEvent s ⟨e, pid, .exited code⟩).jobs jid
      = some (doneFn (some code) (updStatusFn (.Exited code) (some code) job)) := by
    rw [hfinal]
    show dictLookup (dictModify (dictModify s.jobs jid (updStatusFn (.Exited code) (some code))) jid (doneFn (some code))) jid = _
    rw [dictLookup_dictModify_self, dictLookup_dictModify_self, hjob]
    rfl
  have hnd2 : ((handleEvent s ⟨e, pid, .exited code⟩).jobs.map Prod.fst).Nodup := by
    rw [hfinal]
    show ((dictModify (dictModify s.jobs jid (updStatusFn (.Exited code) (some code))) jid (doneFn (some code))).map Prod.fst).Nodup
    rw [keys_dictModify, keys_dictModify]
    exact hnd
  constructor
  · exact ⟨doneFn (some code) (updStatusFn (.Exited code) (some code) job), hlook, rfl, rfl⟩
  · exact prune_removes_old_terminal hnd2 hlook rfl now hage

/-- One running job [1] (pid 100, created at time 0) for exercising the
reap-then-prune sequence. -/
def c10State : ShellState :=
  { jobs := [(1, { pid := 100, cmdline := "sleep 100", status := .Running,
                   start_time := 0, exitcode := none })],
    next_job_id := 2, pid_to_jid := [(100, 1)], foreground_pid := none, pending := [] }

theorem C10_prune_age_from_creation_witness :
    (∃ job2, dictLookup (handleEvent c10State ⟨0, 100, .exited 0⟩).jobs 1 = some job2 ∧
      job2.start_time = 0 ∧ job2.status = .Exited 0) ∧
    dictLookup (prune_done_jobs (handleEvent c10State ⟨0, 100, .exited 0⟩) 100).jobs 1
      = none := by
  have h := C10_prune_age_from_creation c10State 100 1 0 100 0
    { pid := 100, cmdline := "sleep 100", status := .Running,
      start_time := 0, exitcode := none }
    (by decide) (by decide) (by decide) (by decide)
  exact h

end MyShell
